import Mathlib

/-!
# Heimdall key-management core

A shallow embedding of `key.go`, `keyEncryption.go` and `rsa.go`.

Go values are modelled as follows.

* `[]byte` is `List Byte` with `Byte = Fin 256`; a Go `string` is its byte sequence, a
  `List Byte` too. A `nil` slice result is `none`.
* `*big.Int` holding a value is an `Int`; a `*big.Int` that may be `nil` is an `Option Int`.
* A Go call that returns `(value, error)` and may panic at run time is a `GoResult`:
  `ok v` for `(v, nil)`, `error msg` for `(nil, errors.New(msg))`, `panic msg` for a
  run-time panic.
* Library code outside the repository is modelled by its documented behaviour:
  `math/big` (`SetBytes`, `Bytes`), `crypto/aes` (FIPS 197), `crypto/cipher` (CTR mode),
  `crypto/sha256` (FIPS 180-4), `encoding/asn1` (DER), `btcutil/base58`, and the point
  encoding of `crypto/elliptic` (`Marshal`, `Unmarshal`, `IsOnCurve`). The curve that
  `curveOpt.CurveOptToCurve()` returns is an argument; P-256 and P-521 are given as
  instances. The bytes that `rand.Reader` yields are an argument, and so are the signing and
  verification functions of `crypto/rsa`.
-/

namespace Heimdall

/-! ## Basic types -/

/-- One Go `byte`. -/
abbrev Byte := Fin 256

/-- Outcome of a Go call: a value, an `error` value, or a run-time panic. -/
inductive GoResult (α : Type) where
  | ok (val : α)
  | error (msg : String)
  | panic (msg : String)
  deriving DecidableEq

/-- Sequencing of Go calls: the first error or panic ends the computation. -/
def GoResult.bind {α β : Type} (r : GoResult α) (f : α → GoResult β) : GoResult β :=
  match r with
  | .ok v => f v
  | .error e => .error e
  | .panic p => .panic p

/-- The call returned an `error` value (and no result). -/
def GoResult.isError {α : Type} : GoResult α → Bool
  | .error _ => true
  | _ => false

/-- The call panicked. -/
def GoResult.isPanic {α : Type} : GoResult α → Bool
  | .panic _ => true
  | _ => false

/-- Bytewise XOR of two byte strings, as long as the shorter one. -/
def xorBytes (a b : List Byte) : List Byte :=
  List.zipWith (fun x y => x ^^^ y) a b

/-! ## `math/big` -/

/-- The call `new(big.Int).SetBytes(d)`: the bytes of `d` read as a big-endian unsigned integer. -/
def setBytes (d : List Byte) : Nat :=
  d.foldl (fun acc b => acc * 256 + b.val) 0

/-- Base-256 digits of `n`, least significant first, without a most significant zero digit.
The first argument bounds the number of digits produced. -/
def bytesLE : Nat → Nat → List Byte
  | 0, _ => []
  | fuel + 1, n =>
    if n = 0 then [] else ⟨n % 256, Nat.mod_lt _ (by decide)⟩ :: bytesLE fuel (n / 256)

/-- Minimal big-endian encoding of a natural number; the empty slice for zero. -/
def natBytes (n : Nat) : List Byte :=
  (bytesLE n n).reverse

/-- The call `x.Bytes()` of `math/big`: the big-endian bytes of the absolute value of `x`, with no
leading zero byte. -/
def bigBytes (x : Int) : List Byte :=
  natBytes x.natAbs

/-! ## `crypto/elliptic` and `crypto/ecdsa` -/

/-- The type `elliptic.CurveParams`: the numeric parameters of a short Weierstrass curve
`y² = x³ - 3x + B` over the prime field of size `P`. -/
structure elliptic.CurveParams where
  P : Int
  N : Int
  B : Int
  Gx : Int
  Gy : Int
  BitSize : Nat

/-- The interface `elliptic.Curve`, the value `curveOpt.CurveOptToCurve()` returns. Of the
interface only `Params` and `ScalarBaseMult` are used here; a `nil` coordinate is `none`. -/
structure elliptic.Curve where
  Params : elliptic.CurveParams
  ScalarBaseMult : List Byte → Option Int × Option Int

/-- The type `ecdsa.PublicKey`. -/
structure ecdsa.PublicKey where
  Curve : elliptic.Curve
  X : Option Int
  Y : Option Int

/-- The type `ecdsa.PrivateKey`, with a non-nil scalar `D`. -/
structure ecdsa.PrivateKey where
  PublicKey : ecdsa.PublicKey
  D : Int

/-- The curve's byte size `ceil(BitSize / 8)`, the length the specification gives to an
encoded private key. -/
def elliptic.Curve.byteSize (c : elliptic.Curve) : Nat :=
  (c.Params.BitSize + 7) / 8

/-! ## `crypto/aes` -/

/-- The AES S-box (FIPS 197, figure 7). -/
def aesSbox : List Byte :=
  [0x63, 0x7c, 0x77, 0x7b, 0xf2, 0x6b, 0x6f, 0xc5, 0x30, 0x01, 0x67, 0x2b, 0xfe, 0xd7, 0xab, 0x76,
   0xca, 0x82, 0xc9, 0x7d, 0xfa, 0x59, 0x47, 0xf0, 0xad, 0xd4, 0xa2, 0xaf, 0x9c, 0xa4, 0x72, 0xc0,
   0xb7, 0xfd, 0x93, 0x26, 0x36, 0x3f, 0xf7, 0xcc, 0x34, 0xa5, 0xe5, 0xf1, 0x71, 0xd8, 0x31, 0x15,
   0x04, 0xc7, 0x23, 0xc3, 0x18, 0x96, 0x05, 0x9a, 0x07, 0x12, 0x80, 0xe2, 0xeb, 0x27, 0xb2, 0x75,
   0x09, 0x83, 0x2c, 0x1a, 0x1b, 0x6e, 0x5a, 0xa0, 0x52, 0x3b, 0xd6, 0xb3, 0x29, 0xe3, 0x2f, 0x84,
   0x53, 0xd1, 0x00, 0xed, 0x20, 0xfc, 0xb1, 0x5b, 0x6a, 0xcb, 0xbe, 0x39, 0x4a, 0x4c, 0x58, 0xcf,
   0xd0, 0xef, 0xaa, 0xfb, 0x43, 0x4d, 0x33, 0x85, 0x45, 0xf9, 0x02, 0x7f, 0x50, 0x3c, 0x9f, 0xa8,
   0x51, 0xa3, 0x40, 0x8f, 0x92, 0x9d, 0x38, 0xf5, 0xbc, 0xb6, 0xda, 0x21, 0x10, 0xff, 0xf3, 0xd2,
   0xcd, 0x0c, 0x13, 0xec, 0x5f, 0x97, 0x44, 0x17, 0xc4, 0xa7, 0x7e, 0x3d, 0x64, 0x5d, 0x19, 0x73,
   0x60, 0x81, 0x4f, 0xdc, 0x22, 0x2a, 0x90, 0x88, 0x46, 0xee, 0xb8, 0x14, 0xde, 0x5e, 0x0b, 0xdb,
   0xe0, 0x32, 0x3a, 0x0a, 0x49, 0x06, 0x24, 0x5c, 0xc2, 0xd3, 0xac, 0x62, 0x91, 0x95, 0xe4, 0x79,
   0xe7, 0xc8, 0x37, 0x6d, 0x8d, 0xd5, 0x4e, 0xa9, 0x6c, 0x56, 0xf4, 0xea, 0x65, 0x7a, 0xae, 0x08,
   0xba, 0x78, 0x25, 0x2e, 0x1c, 0xa6, 0xb4, 0xc6, 0xe8, 0xdd, 0x74, 0x1f, 0x4b, 0xbd, 0x8b, 0x8a,
   0x70, 0x3e, 0xb5, 0x66, 0x48, 0x03, 0xf6, 0x0e, 0x61, 0x35, 0x57, 0xb9, 0x86, 0xc1, 0x1d, 0x9e,
   0xe1, 0xf8, 0x98, 0x11, 0x69, 0xd9, 0x8e, 0x94, 0x9b, 0x1e, 0x87, 0xe9, 0xce, 0x55, 0x28, 0xdf,
   0x8c, 0xa1, 0x89, 0x0d, 0xbf, 0xe6, 0x42, 0x68, 0x41, 0x99, 0x2d, 0x0f, 0xb0, 0x54, 0xbb, 0x16]

/-- The S-box substitution of one byte. -/
def subByte (b : Byte) : Byte :=
  aesSbox.getD b.val 0

/-- Multiplication by `x` in GF(2^8) modulo `x^8 + x^4 + x^3 + x + 1`. -/
def xtime (a : Byte) : Byte :=
  if a.val < 128 then Fin.ofNat (2 * a.val) else Fin.ofNat (2 * a.val) ^^^ 27

/-- The key schedule: `n` more words for a key of `nk` words, `i` the index of the next
word, `rc` the round constant, `w` the words so far with the latest first. -/
def aesExpandKey : Nat → Nat → Nat → Byte → List (List Byte) → List (List Byte)
  | 0, _, _, _, w => w
  | n + 1, nk, i, rc, w =>
    let prev := w.headD []
    let back := w.getD (nk - 1) []
    if i % nk = 0 then
      let t := xorBytes ((prev.drop 1 ++ prev.take 1).map subByte) [rc, 0, 0, 0]
      aesExpandKey n nk (i + 1) (xtime rc) (xorBytes back t :: w)
    else if 6 < nk ∧ i % nk = 4 then
      aesExpandKey n nk (i + 1) rc (xorBytes back (prev.map subByte) :: w)
    else
      aesExpandKey n nk (i + 1) rc (xorBytes back prev :: w)

/-- The words of a byte string, four bytes each. -/
def aesWords : Nat → List Byte → List (List Byte)
  | 0, _ => []
  | n + 1, bs => bs.take 4 :: aesWords n (bs.drop 4)

/-- The expanded key of a key of `4 * nk` bytes: `16 * (nk + 7)` bytes. -/
def aesRoundKeys (key : List Byte) : List Byte :=
  let nk := key.length / 4
  (aesExpandKey (4 * (nk + 7) - nk) nk nk 1 (aesWords nk key).reverse).reverse.flatten

/-- The step ShiftRows on the state, stored column by column. -/
def shiftRows (s : List Byte) : List Byte :=
  (List.range 16).map fun i => s.getD ((i + 4 * (i % 4)) % 16) 0

/-- The step MixColumns on one column. -/
def mixColumn : List Byte → List Byte
  | [a0, a1, a2, a3] =>
    [xtime a0 ^^^ (xtime a1 ^^^ a1) ^^^ a2 ^^^ a3,
     a0 ^^^ xtime a1 ^^^ (xtime a2 ^^^ a2) ^^^ a3,
     a0 ^^^ a1 ^^^ xtime a2 ^^^ (xtime a3 ^^^ a3),
     (xtime a0 ^^^ a0) ^^^ a1 ^^^ a2 ^^^ xtime a3]
  | c => c

/-- The step MixColumns. -/
def mixColumns (s : List Byte) : List Byte :=
  (List.range 4).flatMap fun c => mixColumn ((s.drop (4 * c)).take 4)

/-- The rounds of the cipher: `n` full rounds and the final round without MixColumns; `rk`
holds the round keys still to use. -/
def aesRounds : Nat → List Byte → List Byte → List Byte
  | 0, rk, s => xorBytes (shiftRows (s.map subByte)) (rk.take 16)
  | n + 1, rk, s =>
    aesRounds n (rk.drop 16) (xorBytes (mixColumns (shiftRows (s.map subByte))) (rk.take 16))

/-- The AES encryption of one 16-byte block (FIPS 197) under a key of 16, 24 or 32
bytes. -/
def aesEncryptBlock (key src : List Byte) : List Byte :=
  let rk := aesRoundKeys key
  let s := aesRounds (key.length / 4 + 5) (rk.drop 16) (xorBytes src (rk.take 16))
  (List.range 16).map fun i => s.getD i 0

/-- The constant `aes.BlockSize`. -/
def aesBlockSize : Nat := 16

/-- A `cipher.Block` of block size 16: its `Encrypt` maps a block to a 16-byte block. -/
structure cipher.Block where
  Encrypt : List Byte → List Byte
  Encrypt_length : ∀ src, (Encrypt src).length = aesBlockSize

/-- The AES block cipher under a key. -/
def aesCipher (key : List Byte) : cipher.Block where
  Encrypt := aesEncryptBlock key
  Encrypt_length := fun _ => by simp [aesEncryptBlock, aesBlockSize]

/-- The call `aes.NewCipher(key)`: a `KeySizeError` unless the key has 16, 24 or 32 bytes. -/
def aesNewCipher (key : List Byte) : GoResult cipher.Block :=
  if key.length = 16 ∨ key.length = 24 ∨ key.length = 32 then
    .ok (aesCipher key)
  else
    .error ("crypto/aes: invalid key size " ++ toString key.length)

/-! ## `crypto/cipher` and `io` -/

/-- The call `io.ReadFull(rand.Reader, buf)` for a buffer of `n` bytes, where `src` is what the
random source still has to give: the first `n` bytes, or an error when it runs dry. -/
def readFull (src : List Byte) (n : Nat) : GoResult (List Byte) :=
  if n ≤ src.length then .ok (src.take n)
  else if src.length = 0 then .error "EOF"
  else .error "unexpected EOF"

/-- The counter increment of `cipher.ctr` on the counter read from its last byte:
add one to a byte and carry on while it wraps to zero. -/
def incCounterLE : List Byte → List Byte
  | [] => []
  | b :: rest => if b + 1 = 0 then (b + 1) :: incCounterLE rest else (b + 1) :: rest

/-- The counter increment of `cipher.ctr`: the counter as a big-endian integer plus one,
wrapping around. -/
def incCounter (ctr : List Byte) : List Byte :=
  (incCounterLE ctr.reverse).reverse

/-- The first `n` blocks of CTR keystream: the encryptions of the successive counters. -/
def ctrKeystream (b : cipher.Block) : Nat → List Byte → List Byte
  | 0, _ => []
  | n + 1, ctr => b.Encrypt ctr ++ ctrKeystream b n (incCounter ctr)

/-- The state of a fresh `cipher.NewCTR` stream: the block cipher and the counter. -/
structure cipher.CTR where
  b : cipher.Block
  ctr : List Byte

/-- The call `cipher.NewCTR(block, iv)`: panics unless the IV is one block long. -/
def NewCTR (block : cipher.Block) (iv : List Byte) : GoResult cipher.CTR :=
  if iv.length ≠ aesBlockSize then
    .panic "cipher.NewCTR: IV length must equal block size"
  else
    .ok { b := block, ctr := iv }

/-- The call `stream.XORKeyStream(dst, src)` on a fresh stream: the new content of `dst`, whose
first `len(src)` bytes are `src` XOR keystream. Panics when `dst` is shorter than `src`. -/
def XORKeyStream (stream : cipher.CTR) (dst src : List Byte) : GoResult (List Byte) :=
  if dst.length < src.length then
    .panic "crypto/cipher: output smaller than input"
  else
    .ok (xorBytes src (ctrKeystream stream.b ((src.length + 15) / 16) stream.ctr)
      ++ dst.drop src.length)

/-! ## `crypto/sha256` -/

/-- The round constants of SHA-256. -/
def sha256K : List Nat :=
  [0x428a2f98, 0x71374491, 0xb5c0fbcf, 0xe9b5dba5, 0x3956c25b, 0x59f111f1, 0x923f82a4, 0xab1c5ed5,
   0xd807aa98, 0x12835b01, 0x243185be, 0x550c7dc3, 0x72be5d74, 0x80deb1fe, 0x9bdc06a7, 0xc19bf174,
   0xe49b69c1, 0xefbe4786, 0x0fc19dc6, 0x240ca1cc, 0x2de92c6f, 0x4a7484aa, 0x5cb0a9dc, 0x76f988da,
   0x983e5152, 0xa831c66d, 0xb00327c8, 0xbf597fc7, 0xc6e00bf3, 0xd5a79147, 0x06ca6351, 0x14292967,
   0x27b70a85, 0x2e1b2138, 0x4d2c6dfc, 0x53380d13, 0x650a7354, 0x766a0abb, 0x81c2c92e, 0x92722c85,
   0xa2bfe8a1, 0xa81a664b, 0xc24b8b70, 0xc76c51a3, 0xd192e819, 0xd6990624, 0xf40e3585, 0x106aa070,
   0x19a4c116, 0x1e376c08, 0x2748774c, 0x34b0bcb5, 0x391c0cb3, 0x4ed8aa4a, 0x5b9cca4f, 0x682e6ff3,
   0x748f82ee, 0x78a5636f, 0x84c87814, 0x8cc70208, 0x90befffa, 0xa4506ceb, 0xbef9a3f7, 0xc67178f2]

/-- The initial hash value of SHA-256. -/
def sha256Init : List Nat :=
  [0x6a09e667, 0xbb67ae85, 0x3c6ef372, 0xa54ff53a, 0x510e527f, 0x9b05688c, 0x1f83d9ab, 0x5be0cd19]

/-- Rotation of a 32-bit word to the right. -/
def rotr (x n : Nat) : Nat :=
  (x >>> n ||| x <<< (32 - n)) % 2 ^ 32

/-- The padded message: the bit `1`, zero bits, and the bit length in 64 bits. -/
def sha256Pad (msg : List Byte) : List Byte :=
  let bitLen : List Byte :=
    (List.range 8).map fun i => Fin.ofNat ((msg.length * 8) >>> (8 * (7 - i)))
  msg ++ 128 :: List.replicate ((119 - msg.length % 64) % 64) 0 ++ bitLen

/-- The 32-bit big-endian words of a byte string. -/
def beWords : Nat → List Byte → List Nat
  | 0, _ => []
  | n + 1, bs => setBytes (bs.take 4) :: beWords n (bs.drop 4)

/-- The message schedule extended by `n` words; the list holds the words so far, the latest
first. -/
def sha256Schedule : Nat → List Nat → List Nat
  | 0, w => w
  | n + 1, w =>
    let w2 := w.getD 1 0
    let w7 := w.getD 6 0
    let w15 := w.getD 14 0
    let w16 := w.getD 15 0
    let s0 := rotr w15 7 ^^^ rotr w15 18 ^^^ w15 >>> 3
    let s1 := rotr w2 17 ^^^ rotr w2 19 ^^^ w2 >>> 10
    sha256Schedule n (((w16 + s0 + w7 + s1) % 2 ^ 32) :: w)

/-- One round of the compression function on the working variables `a, …, h`, with the
round constant and the schedule word. -/
def sha256Round (s : List Nat) (kw : Nat × Nat) : List Nat :=
  match s with
  | [a, b, c, d, e, f, g, h] =>
    let S1 := rotr e 6 ^^^ rotr e 11 ^^^ rotr e 25
    let ch := (e &&& f) ^^^ ((2 ^ 32 - 1 - e) &&& g)
    let t1 := (h + S1 + ch + kw.1 + kw.2) % 2 ^ 32
    let S0 := rotr a 2 ^^^ rotr a 13 ^^^ rotr a 22
    let mj := (a &&& b) ^^^ (a &&& c) ^^^ (b &&& c)
    let t2 := (S0 + mj) % 2 ^ 32
    [(t1 + t2) % 2 ^ 32, a, b, c, (d + t1) % 2 ^ 32, e, f, g]
  | _ => s

/-- The compression of one 64-byte block into the hash value. -/
def sha256Block (h : List Nat) (block : List Byte) : List Nat :=
  let w := (sha256Schedule 48 (beWords 16 block).reverse).reverse
  let s := (sha256K.zip w).foldl sha256Round h
  List.zipWith (fun x y => (x + y) % 2 ^ 32) h s

/-- The hash value after `n` more blocks of the padded message. -/
def sha256Blocks : Nat → List Nat → List Byte → List Nat
  | 0, h, _ => h
  | n + 1, h, m => sha256Blocks n (sha256Block h (m.take 64)) (m.drop 64)

/-- The SHA-256 digest of a message (FIPS 180-4): `sha256.New()`, `Write(msg)`,
`Sum(nil)`. -/
def sha256Sum (msg : List Byte) : List Byte :=
  let m := sha256Pad msg
  let h := sha256Blocks (m.length / 64) sha256Init m
  (List.range 8).flatMap fun i =>
    (List.range 4).map fun j => Fin.ofNat (h.getD i 0 >>> (8 * (3 - j)))

/-! ## `encoding/asn1` -/

/-- Content octets of a DER INTEGER: the minimal two's complement encoding. -/
def derIntContent (v : Int) : List Byte :=
  if v = 0 then [0]
  else if 0 < v then
    let bytes := natBytes v.toNat
    if 128 ≤ (bytes.headD 0).val then 0 :: bytes else bytes
  else
    let bytes := (natBytes (-v - 1).toNat).map fun b => b ^^^ 255
    if bytes = [] ∨ (bytes.headD 0).val < 128 then 255 :: bytes else bytes

/-- Length octets of DER: one byte below 128, else the count of length bytes and the
big-endian length. -/
def derLength (n : Nat) : List Byte :=
  if n < 128 then [Fin.ofNat n]
  else Fin.ofNat (128 + (natBytes n).length) :: natBytes n

/-- One DER tag-length-value element. -/
def derTLV (tag : Byte) (content : List Byte) : List Byte :=
  tag :: (derLength content.length ++ content)

/-! ## `btcutil/base58` -/

/-- The base-58 alphabet, as the bytes of the Go string constant. -/
def alphabet : List Byte :=
  "123456789ABCDEFGHJKLMNPQRSTUVWXYZabcdefghijkmnopqrstuvwxyz".toList.map
    fun c => Fin.ofNat c.toNat

/-- The byte of the character `1`, the digit zero. -/
def alphabetIdx0 : Byte := 49

/-- The table `b58`: the digit a byte stands for, 255 for a byte outside the alphabet. -/
def b58 (c : Byte) : Nat :=
  if alphabet.indexOf c < 58 then alphabet.indexOf c else 255

/-- The loop of `base58.Decode` over the characters from the last to the first, with the
running `answer` and place value `j`; `none` when a character is outside the alphabet. -/
def decodeLoop : List Byte → Nat → Nat → Option Nat
  | [], answer, _ => some answer
  | c :: rest, answer, j =>
    if b58 c = 255 then none else decodeLoop rest (answer + j * b58 c) (j * 58)

/-- The function `base58.Decode`; a Go string is its byte sequence. -/
def base58Decode (b : List Byte) : List Byte :=
  match decodeLoop b.reverse 0 1 with
  | none => []
  | some answer =>
    let tmpval := natBytes answer
    let numZeros := (b.takeWhile (fun c => c = alphabetIdx0)).length
    List.replicate numZeros 0 ++ tmpval

/-- The character `alphabet[d]` of a base-58 digit. -/
def digitChar (d : Nat) : Byte :=
  alphabet.getD d 0

/-- The loop `for x > 0` of `base58.Encode`: the characters appended, in order. The first
argument bounds the number of rounds. -/
def encodeLoop : Nat → Nat → List Byte
  | 0, _ => []
  | fuel + 1, x =>
    if 0 < x then digitChar (x % 58) :: encodeLoop fuel (x / 58) else []

/-- The function `base58.Encode`. -/
def base58Encode (b : List Byte) : List Byte :=
  let x := setBytes b
  let answer := encodeLoop x x
  let answer := answer ++ List.replicate (b.takeWhile (fun i => i = 0)).length alphabetIdx0
  answer.reverse

/-- A Go string literal as its bytes. -/
def goString (s : String) : List Byte :=
  s.toList.map fun c => Fin.ofNat c.toNat

/-! ## `key.go` -/

/-- The function `PriKeyToBytes`: `pri.D.Bytes()`. -/
def PriKeyToBytes (pri : ecdsa.PrivateKey) : List Byte :=
  bigBytes pri.D

/-- The error of the length check of `BytesToPriKey`. -/
def errWrongLength : String :=
  "invalid private key - wrong length of key bytes for the entered curve option"

/-- The error of the check against the order `N`. -/
def errNotSmallerThanN : String :=
  "invalid private key - private key must be smaller than N of curve"

/-- The error of the sign check. -/
def errNotPositive : String :=
  "invalid private key - private key should be positive value"

/-- The error of the check of the derived public point. -/
def errNilX : String :=
  "invalid private key - public key X component must not be nil"

/-- The function `BytesToPriKey`, with `curve` the value of `curveOpt.CurveOptToCurve()`. -/
def BytesToPriKey (d : List Byte) (curve : elliptic.Curve) : GoResult ecdsa.PrivateKey :=
  if 8 * d.length ≠ curve.Params.BitSize then
    .error errWrongLength
  else
    let D : Int := (setBytes d : Int)
    if D ≥ curve.Params.N then
      .error errNotSmallerThanN
    else if D ≤ 0 then
      .error errNotPositive
    else
      let XY := curve.ScalarBaseMult d
      if XY.1 = none then
        .error errNilX
      else
        .ok { PublicKey := { Curve := curve, X := XY.1, Y := XY.2 }, D := D }

/-- The function `SKIToKeyID`. -/
def SKIToKeyID (ski : List Byte) : List Byte :=
  base58Encode ski

/-- The function `SKIFromKeyID`. -/
def SKIFromKeyID (keyId : List Byte) : List Byte :=
  base58Decode keyId

/-! ## `keyEncryption.go` -/

/-- The function `encryptWithAES`, with `rand` what `rand.Reader` has to give. -/
def encryptWithAES (rand : List Byte) (plaintext key : List Byte) : GoResult (List Byte) :=
  (aesNewCipher key).bind fun block =>
  let ciphertext : List Byte := List.replicate (aesBlockSize + plaintext.length) 0
  -- `iv` aliases `ciphertext[:aes.BlockSize]`: reading into it writes the head of the buffer
  (readFull rand (ciphertext.take aesBlockSize).length).bind fun iv =>
  let ciphertext := iv ++ ciphertext.drop aesBlockSize
  (NewCTR block iv).bind fun stream =>
  (XORKeyStream stream (ciphertext.drop aesBlockSize) plaintext).bind fun tail =>
  .ok (ciphertext.take aesBlockSize ++ tail)

/-- The function `decryptWithAES`. Go's `make` panics on a negative length, which is what
`len(ciphertext) - aes.BlockSize` is for an input shorter than one block. -/
def decryptWithAES (ciphertext key : List Byte) : GoResult (List Byte) :=
  (aesNewCipher key).bind fun block =>
  if ciphertext.length < aesBlockSize then
    .panic "runtime error: makeslice: len out of range"
  else
    let plaintext : List Byte := List.replicate (ciphertext.length - aesBlockSize) 0
    let iv := ciphertext.take aesBlockSize
    (NewCTR block iv).bind fun stream =>
    XORKeyStream stream plaintext (ciphertext.drop aesBlockSize)

/-- The function `EncryptPriKey`. -/
def EncryptPriKey (rand : List Byte) (pri : ecdsa.PrivateKey) (key : List Byte) :
    GoResult (List Byte) :=
  let keyBytes := PriKeyToBytes pri
  match encryptWithAES rand keyBytes key with
  | .ok encryptedKey => .ok encryptedKey
  | .error err => .error err
  | .panic p => .panic p

/-- The function `DecryptPriKey`. -/
def DecryptPriKey (encryptedKey key : List Byte) (curve : elliptic.Curve) :
    GoResult ecdsa.PrivateKey :=
  match decryptWithAES encryptedKey key with
  | .error err => .error err
  | .panic p => .panic p
  | .ok decKey =>
    match BytesToPriKey decKey curve with
    | .error err => .error err
    | .panic p => .panic p
    | .ok pri => .ok pri

/-! ## `rsa.go` -/

/-- The struct `rsaKeyMarshalOpt`. -/
structure rsaKeyMarshalOpt where
  N : Int
  E : Int

/-- The call `asn1.Marshal` of an `rsaKeyMarshalOpt`: the DER SEQUENCE of the two INTEGERs. -/
def asn1Marshal (v : rsaKeyMarshalOpt) : List Byte :=
  derTLV 48 (derTLV 2 (derIntContent v.N) ++ derTLV 2 (derIntContent v.E))

/-- The type `rsa.PublicKey`. -/
structure rsa.PublicKey where
  N : Int
  E : Int

/-- The type `rsa.PrivateKey`; the public part is embedded. -/
structure rsa.PrivateKey where
  PublicKey : rsa.PublicKey
  D : Int

/-- The struct `RsaPrivateKey`; `priv` may be `nil`. -/
structure RsaPrivateKey where
  priv : Option rsa.PrivateKey

/-- The struct `rsaPublicKey`; `pub` may be `nil`. -/
structure rsaPublicKey where
  pub : Option rsa.PublicKey

/-- The method `RsaPrivateKey.SKI`. -/
def RsaPrivateKey.SKI (key : RsaPrivateKey) : Option (List Byte) :=
  match key.priv with
  | none => none
  | some priv =>
    let data := asn1Marshal { N := priv.PublicKey.N, E := priv.PublicKey.E }
    some (sha256Sum data)

/-- The method `RsaPrivateKey.PublicKey`: taking the address of a field of a `nil`
`priv` panics. -/
def RsaPrivateKey.PublicKey (key : RsaPrivateKey) : GoResult rsaPublicKey :=
  match key.priv with
  | none => .panic "runtime error: invalid memory address or nil pointer dereference"
  | some priv => .ok { pub := some priv.PublicKey }

/-- The method `rsaPublicKey.SKI`. -/
def rsaPublicKey.SKI (key : rsaPublicKey) : Option (List Byte) :=
  match key.pub with
  | none => none
  | some _ =>
    let data := asn1Marshal { N := 123, E := 57 }
    some (sha256Sum data)

/-! ## The curve NIST P-256 -/

/-- Modular exponentiation `b ^ e mod m` by repeated squaring. -/
def powMod (m : Nat) : Nat → Nat → Nat → Nat
  | 0, _, _ => 1 % m
  | fuel + 1, b, e =>
    if e = 0 then 1 % m
    else
      let h := powMod m fuel (b * b % m) (e / 2)
      if e % 2 = 1 then b * h % m else h

/-- Inverse modulo a prime `p`. -/
def invMod (p a : Nat) : Nat :=
  powMod p (p + 1) (a % p) (p - 2)

/-- Doubling of an affine point on `y² = x³ - 3x + b` over the field of size `p`;
`none` is the point at infinity. -/
def ecDouble (p : Nat) : Option (Nat × Nat) → Option (Nat × Nat)
  | none => none
  | some (x, y) =>
    if y = 0 then none
    else
      let l := (3 * x * x + (p - 3)) % p * invMod p (2 * y) % p
      let x3 := (l * l + 2 * (p - x)) % p
      some (x3, (l * (x + (p - x3)) + (p - y)) % p)

/-- Addition of affine points. -/
def ecAdd (p : Nat) : Option (Nat × Nat) → Option (Nat × Nat) → Option (Nat × Nat)
  | none, q => q
  | some a, none => some a
  | some (x1, y1), some (x2, y2) =>
    if x1 = x2 then
      if y1 = y2 then ecDouble p (some (x1, y1)) else none
    else
      let l := (y2 + (p - y1)) % p * invMod p (x2 + (p - x1)) % p
      let x3 := (l * l + (p - x1) + (p - x2)) % p
      some (x3, (l * (x1 + (p - x3)) + (p - y1)) % p)

/-- The bits of a byte, most significant first. -/
def byteBits (b : Byte) : List Bool :=
  (List.range 8).map (fun i => (b.val / 2 ^ (7 - i)) % 2 = 1)

/-- Double-and-add over the bits of the scalar, most significant first. -/
def ecScalarMult (p : Nat) (g : Nat × Nat) (k : List Byte) : Option (Nat × Nat) :=
  (k.flatMap byteBits).foldl
    (fun acc bit => if bit then ecAdd p (ecDouble p acc) (some g) else ecDouble p acc) none

/-- Parameters of NIST P-256. -/
def p256Params : elliptic.CurveParams where
  P := 0xffffffff00000001000000000000000000000000ffffffffffffffffffffffff
  N := 0xffffffff00000000ffffffffffffffffbce6faada7179e84f3b9cac2fc632551
  B := 0x5ac635d8aa3a93e7b3ebbd55769886bc651d06b0cc53b0f63bce3c3e27d2604b
  Gx := 0x6b17d1f2e12c4247f8bce6e563a440f277037d812deb33a0f4a13945d898c296
  Gy := 0x4fe342e2fe1a7f9b8ee7eb4a7c0f9e162bce33576b315ececbb6406837bf51f5
  BitSize := 256

/-- The curve `elliptic.P256()`: the affine coordinates of `k·G`, and `(0, 0)` for the
point at infinity. -/
def p256 : elliptic.Curve where
  Params := p256Params
  ScalarBaseMult := fun k =>
    match ecScalarMult p256Params.P.toNat (p256Params.Gx.toNat, p256Params.Gy.toNat) k with
    | none => (some 0, some 0)
    | some (x, y) => (some (x : Int), some (y : Int))

/-! ## `crypto/elliptic`: point encoding -/

/-- The method `IsOnCurve` of the curves of `crypto/elliptic`: whether both coordinates lie
in `[0, P)` and `y² = x³ - 3x + B` holds modulo `P`. -/
def elliptic.Curve.IsOnCurve (curve : elliptic.Curve) (x y : Int) : Bool :=
  decide (0 ≤ x ∧ x < curve.Params.P ∧ 0 ≤ y ∧ y < curve.Params.P ∧
    (y * y) % curve.Params.P = (x * x * x - 3 * x + curve.Params.B) % curve.Params.P)

/-- The run-time panic of a nil pointer dereference. -/
def panicNilPointer : String :=
  "runtime error: invalid memory address or nil pointer dereference"

/-- The panic of `crypto/elliptic` on a point that is not on the curve. -/
def panicInvalidPoint : String :=
  "crypto/elliptic: attempted operation on invalid point"

/-- The panic of `FillBytes` on a buffer shorter than the value. -/
def panicBufferTooSmall : String :=
  "math/big: buffer too small to fit value"

/-- The call `x.FillBytes(buf)` of `math/big` for a buffer of `n` bytes: the big-endian bytes
of `|x|`, padded with zero bytes on the left to `n` bytes; a panic when they do not fit. -/
def fillBytes (n : Nat) (x : Int) : GoResult (List Byte) :=
  if n < (bigBytes x).length then .panic panicBufferTooSmall
  else .ok (List.replicate (n - (bigBytes x).length) 0 ++ bigBytes x)

/-- The function `elliptic.Marshal`: the uncompressed form of a point. It panics on a `nil`
coordinate and on a point that is not on the curve, the pair `(0, 0)` apart, which stands
for the point at infinity. -/
def ellipticMarshal (curve : elliptic.Curve) (x y : Option Int) : GoResult (List Byte) :=
  match x, y with
  | none, _ => .panic panicNilPointer
  | some x, none => if x < 0 then .panic panicInvalidPoint else .panic panicNilPointer
  | some x, some y =>
    if ¬ (x = 0 ∧ y = 0) ∧ ¬ curve.IsOnCurve x y then
      .panic panicInvalidPoint
    else
      let byteLen := (curve.Params.BitSize + 7) / 8
      (fillBytes byteLen x).bind fun xBytes =>
      (fillBytes byteLen y).bind fun yBytes =>
      .ok (4 :: (xBytes ++ yBytes))

/-- The function `elliptic.Unmarshal`: the point an uncompressed form stands for, and
`(nil, nil)` for a wrong length, a wrong tag, a coordinate not below `P` or a point off the
curve. -/
def ellipticUnmarshal (curve : elliptic.Curve) (data : List Byte) : Option Int × Option Int :=
  let byteLen := (curve.Params.BitSize + 7) / 8
  if data.length ≠ 1 + 2 * byteLen then (none, none)
  else if data.headD 0 ≠ 4 then (none, none)
  else
    let x : Int := (setBytes ((data.drop 1).take byteLen) : Int)
    let y : Int := (setBytes (data.drop (1 + byteLen)) : Int)
    if x ≥ curve.Params.P ∨ y ≥ curve.Params.P then (none, none)
    else if ¬ curve.IsOnCurve x y then (none, none)
    else (some x, some y)

/-! ## `key.go`: public keys and identifiers -/

/-- The function `PubKeyToBytes`. -/
def PubKeyToBytes (pub : ecdsa.PublicKey) : GoResult (List Byte) :=
  ellipticMarshal pub.Curve pub.X pub.Y

/-- The function `BytesToPubKey`, with `curve` the value of `curveOpt.CurveOptToCurve()`. The
empty key returned beside the error is left out. -/
def BytesToPubKey (keyBytes : List Byte) (curve : elliptic.Curve) : GoResult ecdsa.PublicKey :=
  let xy := ellipticUnmarshal curve keyBytes
  if xy.1 = none then
    .error ""
  else
    .ok { X := xy.1, Y := xy.2, Curve := curve }

/-- The function `SKIFromPubKey`; a `nil` key is `none`, and so is the `nil` result. -/
def SKIFromPubKey (key : Option ecdsa.PublicKey) : GoResult (Option (List Byte)) :=
  match key with
  | none => .ok none
  | some key =>
    (PubKeyToBytes key).bind fun data =>
    .ok (some (sha256Sum data))

/-- The function `PubKeyToKeyID`; `base58.Encode` reads a `nil` slice as the empty one. -/
def PubKeyToKeyID (key : Option ecdsa.PublicKey) : GoResult (List Byte) :=
  (SKIFromPubKey key).bind fun ski =>
  .ok (base58Encode (ski.getD []))

/-- The function `RemoveKeyMem`: the key after the call. -/
def RemoveKeyMem (pri : ecdsa.PrivateKey) : ecdsa.PrivateKey :=
  { pri with D := 0 }

/-! ## `rsa.go`: signing and verification -/

/-- The type `rsa.PSSOptions`; `Hash` is the number of the `crypto.Hash`. -/
structure rsa.PSSOptions where
  SaltLength : Int
  Hash : Nat

/-- Modelled from the spec: the interface `SignerOpts`, declared outside the files at hand,
by the dynamic type of its value: a `*rsa.PSSOptions` (which may be a `nil` pointer), or a
value of another type, of which only `HashFunc()` matters. -/
inductive SignerOpts where
  | pss (opts : Option rsa.PSSOptions)
  | other (hashFunc : Nat)

/-- The functions of `crypto/rsa` that `rsa.go` calls, as arguments: signing draws on the
random source, and `VerifyPSS` returns `nil` (`ok`) or an error. -/
structure CryptoRSA where
  SignPSS : List Byte → rsa.PrivateKey → Nat → List Byte → rsa.PSSOptions →
    GoResult (List Byte)
  SignPKCS1v15 : List Byte → rsa.PrivateKey → Nat → List Byte → GoResult (List Byte)
  VerifyPSS : rsa.PublicKey → Nat → List Byte → List Byte → rsa.PSSOptions → GoResult Unit

/-- The method `Sign` of `*rsa.PrivateKey`: PSS for `*rsa.PSSOptions`, else PKCS #1 v1.5
with the hash function of the options. -/
def rsaPrivateKeySign (lib : CryptoRSA) (rand : List Byte) (priv : Option rsa.PrivateKey)
    (digest : List Byte) (opts : SignerOpts) : GoResult (List Byte) :=
  match opts with
  | .pss none => .panic panicNilPointer
  | .pss (some pssOpts) =>
    match priv with
    | none => .panic panicNilPointer
    | some priv => lib.SignPSS rand priv pssOpts.Hash digest pssOpts
  | .other hashFunc =>
    match priv with
    | none => .panic panicNilPointer
    | some priv => lib.SignPKCS1v15 rand priv hashFunc digest

/-- Modelled from the spec: the interface `Key`, declared outside the files at hand, by the
dynamic type of its value: a `*RsaPrivateKey` or a `*rsaPublicKey` (either may be a `nil`
pointer), or anything else. -/
inductive Key where
  | rsaPrivate (key : Option RsaPrivateKey)
  | rsaPublic (key : Option rsaPublicKey)
  | other

/-- The run-time panic of a failed type assertion. -/
def panicTypeAssertion : String :=
  "interface conversion: interface is not of the asserted type"

/-- The error of absent and of unsupported options. -/
def errInvalidOptions : String := "invalid options"

/-- The error of a rejected signature. -/
def errVerifying : String := "verifying error occurred"

/-- The method `RsaSigner.Sign`, with `rand` what `rand.Reader` has to give; absent options
are `none`. -/
def RsaSigner.Sign (lib : CryptoRSA) (rand : List Byte) (key : Key) (digest : List Byte)
    (opts : Option SignerOpts) : GoResult (List Byte) :=
  match opts with
  | none => .error errInvalidOptions
  | some opts =>
    match key with
    | .rsaPrivate (some key) => rsaPrivateKeySign lib rand key.priv digest opts
    | .rsaPrivate none => .panic panicNilPointer
    | _ => .panic panicTypeAssertion

/-- The method `RsaVerifier.Verify`: `ok (b, err)` is the pair it returns, `err = none` for
a `nil` error. -/
def RsaVerifier.Verify (lib : CryptoRSA) (key : Key) (signature digest : List Byte)
    (opts : Option SignerOpts) : GoResult (Bool × Option String) :=
  match opts with
  | none => .ok (false, some errInvalidOptions)
  | some (.pss pssOpts) =>
    match key with
    | .rsaPublic (some key) =>
      match pssOpts with
      | none => .panic panicNilPointer
      | some pssOpts =>
        match key.pub with
        | none => .panic panicNilPointer
        | some pub =>
          match lib.VerifyPSS pub pssOpts.Hash digest signature pssOpts with
          | .ok _ => .ok (true, none)
          | .error _ => .ok (false, some errVerifying)
          | .panic p => .panic p
    | .rsaPublic none => .panic panicNilPointer
    | _ => .panic panicTypeAssertion
  | some (.other _) => .ok (false, some errInvalidOptions)

/-! ## The curve NIST P-521 -/

/-- Parameters of NIST P-521. -/
def p521Params : elliptic.CurveParams where
  P := 0x1ffffffffffffffffffffffffffffffffffffffffffffffffffffffffffffffffffffffffffffffffffffffffffffffffffffffffffffffffffffffffffffffffff
  N := 0x1fffffffffffffffffffffffffffffffffffffffffffffffffffffffffffffffffa51868783bf2f966b7fcc0148f709a5d03bb5c9b8899c47aebb6fb71e91386409
  B := 0x51953eb9618e1c9a1f929a21a0b68540eea2da725b99b315f3b8b489918ef109e156193951ec7e937b1652c0bd3bb1bf073573df883d2c34f1ef451fd46b503f00
  Gx := 0xc6858e06b70404e9cd9e3ecb662395b4429c648139053fb521f828af606b4d3dbaa14b5e77efe75928fe1dc127a2ffa8de3348b3c1856a429bf97e7e31c2e5bd66
  Gy := 0x11839296a789a3bc0045c8a5fb42c7d1bd998f54449579b446817afbd17273e662c97ee72995ef42640c550b9013fad0761353c7086a272c24088be94769fd16650
  BitSize := 521

/-- The curve `elliptic.P521()`: the affine coordinates of `k·G`, and `(0, 0)` for the
point at infinity. -/
def p521 : elliptic.Curve where
  Params := p521Params
  ScalarBaseMult := fun k =>
    match ecScalarMult p521Params.P.toNat (p521Params.Gx.toNat, p521Params.Gy.toNat) k with
    | none => (some 0, some 0)
    | some (x, y) => (some (x : Int), some (y : Int))

/-! ## Sample values -/

/-- The P-256 key with scalar 1: its public point is the base point. -/
def keyOne : ecdsa.PrivateKey :=
  { PublicKey := { Curve := p256, X := some p256Params.Gx, Y := some p256Params.Gy }, D := 1 }

/-- Thirty-two zero bytes. -/
def zeros32 : List Byte := List.replicate 32 0

/-- The 32-byte encoding of the scalar 1. -/
def one32 : List Byte := List.replicate 31 0 ++ [1]

/-- Thirty-two bytes `0xff`: a value above the order of P-256. -/
def ones32 : List Byte := List.replicate 32 255

/-- The 16-byte AES key `00 01 … 0f`. -/
def sampleKey : List Byte := (List.range 16).map Fin.ofNat

/-- Twenty bytes from the random source. -/
def sampleRand : List Byte := (List.range 20).map fun i => Fin.ofNat (7 * i + 3)

/-- A 32-byte SKI that starts with two zero bytes. -/
def sampleSKI : List Byte := [0, 0] ++ (List.range 30).map fun i => Fin.ofNat (8 * i + 1)

/-- The P-256 public key of the base point. -/
def basePub : ecdsa.PublicKey :=
  { Curve := p256, X := some p256Params.Gx, Y := some p256Params.Gy }

/-- The 66-byte encoding of the scalar 1, the byte size of P-521. -/
def one66 : List Byte := List.replicate 65 0 ++ [1]

/-- A stand-in for `crypto/rsa` in examples: textbook RSA on the digest, without padding.
The signature is `digest ^ D mod N`, and a signature `s` is accepted when `s ^ E mod N` is the
digest modulo `N`. -/
def sampleRsaLib : CryptoRSA where
  SignPSS := fun _ priv _ digest _ =>
    .ok (natBytes (powMod priv.PublicKey.N.toNat (priv.D.toNat + 1) (setBytes digest)
      priv.D.toNat))
  SignPKCS1v15 := fun _ priv _ digest =>
    .ok (natBytes (powMod priv.PublicKey.N.toNat (priv.D.toNat + 1) (setBytes digest)
      priv.D.toNat))
  VerifyPSS := fun pub _ digest sig _ =>
    if powMod pub.N.toNat (pub.E.toNat + 1) (setBytes sig) pub.E.toNat
        = setBytes digest % pub.N.toNat then .ok ()
    else .error "crypto/rsa: verification error"

/-- The options `&rsa.PSSOptions{SaltLength: rsa.PSSSaltLengthEqualsHash, Hash: crypto.SHA256}`;
SHA-256 is hash number 5. -/
def samplePSS : rsa.PSSOptions := { SaltLength := -1, Hash := 5 }

/-- A small RSA key: `N = 61 · 53`, `E = 17`. -/
def sampleRsaKey : RsaPrivateKey :=
  { priv := some { PublicKey := { N := 3233, E := 17 }, D := 2753 } }

/-! ## Known answers of the library models -/

set_option maxRecDepth 100000 in
/-- The example of FIPS 197, appendix C.1: AES-128 of `00 11 … ff` under `00 01 … 0f`. -/
theorem aesEncryptBlock_fips197 :
    aesEncryptBlock sampleKey ((List.range 16).map fun i => Fin.ofNat (17 * i)) =
      [0x69, 0xc4, 0xe0, 0xd8, 0x6a, 0x7b, 0x04, 0x30,
       0xd8, 0xcd, 0xb7, 0x80, 0x70, 0xb4, 0xc5, 0x5a] := by
  decide

set_option maxRecDepth 100000 in
/-- The example of FIPS 197, appendix C.2: AES-192 of `00 11 … ff` under `00 01 … 17`. -/
theorem aesEncryptBlock_fips197_192 :
    aesEncryptBlock ((List.range 24).map Fin.ofNat)
        ((List.range 16).map fun i => Fin.ofNat (17 * i)) =
      [0xdd, 0xa9, 0x7c, 0xa4, 0x86, 0x4c, 0xdf, 0xe0,
       0x6e, 0xaf, 0x70, 0xa0, 0xec, 0x0d, 0x71, 0x91] := by
  decide

set_option maxRecDepth 100000 in
/-- The example of FIPS 197, appendix C.3: AES-256 of `00 11 … ff` under `00 01 … 1f`. -/
theorem aesEncryptBlock_fips197_256 :
    aesEncryptBlock ((List.range 32).map Fin.ofNat)
        ((List.range 16).map fun i => Fin.ofNat (17 * i)) =
      [0x8e, 0xa2, 0xb7, 0xca, 0x51, 0x67, 0x45, 0xbf,
       0xea, 0xfc, 0x49, 0x90, 0x4b, 0x49, 0x60, 0x89] := by
  decide

set_option maxRecDepth 100000 in
/-- The one-block example of FIPS 180-4: the SHA-256 digest of `abc`. -/
theorem sha256Sum_abc :
    sha256Sum (goString "abc") =
      [0xba, 0x78, 0x16, 0xbf, 0x8f, 0x01, 0xcf, 0xea, 0x41, 0x41, 0x40, 0xde, 0x5d, 0xae, 0x22,
       0x23, 0xb0, 0x03, 0x61, 0xa3, 0x96, 0x17, 0x7a, 0x9c, 0xb4, 0x10, 0xff, 0x61, 0xf2, 0x00,
       0x15, 0xad] := by
  decide

theorem sha256Sum_length (msg : List Byte) : (sha256Sum msg).length = 32 := by
  simp [sha256Sum, List.length_flatMap, Function.comp_def]

set_option maxRecDepth 100000 in
/-- The double of the base point of P-256. -/
theorem p256_ScalarBaseMult_two :
    p256.ScalarBaseMult (List.replicate 31 0 ++ [2]) =
      (some 0x7cf27b188d034f7e8a52380304b51ac3c08969e277f21b35a60b48fc47669978,
       some 0x07775510db8ed040293d9ac69f7430dbba7dade63ce982299e04b79d227873d1) := by
  decide

/-- The DER encoding of the sequence `(123, 57)`. -/
theorem asn1Marshal_123_57 :
    asn1Marshal { N := 123, E := 57 } = [0x30, 0x06, 0x02, 0x01, 0x7b, 0x02, 0x01, 0x39] := by
  decide

set_option maxRecDepth 100000 in
/-- A base-58 example: `Hello World!` encodes to `2NEpo7TZRRrLZSi2U`. -/
theorem base58Encode_hello :
    base58Encode (goString "Hello World!") = goString "2NEpo7TZRRrLZSi2U" := by
  decide

/-! ## Lemmas on `math/big` -/

theorem setBytes_snoc (l : List Byte) (a : Byte) :
    setBytes (l ++ [a]) = setBytes l * 256 + a.val := by
  simp [setBytes, List.foldl_append]

theorem setBytes_eq_ofDigits (l : List Byte) :
    setBytes l = Nat.ofDigits 256 (l.reverse.map Fin.val) := by
  induction l using List.reverseRecOn with
  | nil => simp [setBytes]
  | append_singleton l a ih =>
    rw [setBytes_snoc, ih]
    simp [Nat.ofDigits_cons]
    ring

theorem bytesLE_val (fuel : Nat) : ∀ n, n ≤ fuel →
    (bytesLE fuel n).map Fin.val = Nat.digits 256 n := by
  induction fuel with
  | zero =>
    intro n h
    have h0 : n = 0 := by omega
    subst h0
    simp [bytesLE]
  | succ f ih =>
    intro n h
    by_cases hn : n = 0
    · subst hn; simp [bytesLE]
    · have hpos : 0 < n := Nat.pos_of_ne_zero hn
      rw [Nat.digits_def' (by decide) hpos]
      simp only [bytesLE, hn, if_false, List.map_cons]
      rw [ih (n / 256) (by omega)]

theorem natBytes_val (n : Nat) : (natBytes n).map Fin.val = (Nat.digits 256 n).reverse := by
  simp [natBytes, List.map_reverse, bytesLE_val n n (le_refl n)]

theorem setBytes_natBytes (n : Nat) : setBytes (natBytes n) = n := by
  rw [setBytes_eq_ofDigits]
  have h : (natBytes n).reverse.map Fin.val = Nat.digits 256 n := by
    rw [List.map_reverse, natBytes_val, List.reverse_reverse]
  rw [h, Nat.ofDigits_digits]

theorem setBytes_cons_zero (l : List Byte) : setBytes (0 :: l) = setBytes l := by
  simp [setBytes]

theorem setBytes_dropWhile_zero (l : List Byte) :
    setBytes (l.dropWhile (fun b => b = 0)) = setBytes l := by
  induction l with
  | nil => rfl
  | cons a t ih =>
    by_cases ha : a = 0
    · subst ha
      simp [List.dropWhile_cons, setBytes_cons_zero, ih]
    · simp [List.dropWhile_cons, ha]

/-- A byte string without a leading zero byte is the minimal encoding of its value. -/
theorem natBytes_setBytes_of_head (l : List Byte) (h : ∀ a t, l = a :: t → a ≠ 0) :
    natBytes (setBytes l) = l := by
  have hinj : Function.Injective (List.map (Fin.val : Byte → Nat)) :=
    List.map_injective_iff.mpr Fin.val_injective
  apply hinj
  rw [natBytes_val, setBytes_eq_ofDigits, Nat.digits_ofDigits 256 (by decide)]
  · simp [List.map_reverse]
  · intro d hd
    simp only [List.mem_map, List.mem_reverse] at hd
    obtain ⟨b, _, rfl⟩ := hd
    exact b.isLt
  · intro hne
    cases l with
    | nil => simp at hne
    | cons a t =>
      have ha := h a t rfl
      simp only [List.reverse_cons, List.map_append, List.map_cons, List.map_nil,
        List.getLast_append_singleton]
      intro h0
      exact ha (Fin.ext h0)

theorem natBytes_setBytes (l : List Byte) :
    natBytes (setBytes l) = l.dropWhile (fun b => b = 0) := by
  rw [← setBytes_dropWhile_zero]
  apply natBytes_setBytes_of_head
  intro a t hl
  have hmem : (l.dropWhile (fun b => decide (b = 0))).head? = some a := by simp [hl]
  have := List.head?_dropWhile_not (fun b : Byte => decide (b = 0)) l
  rw [hmem] at this
  simpa using this


theorem natBytes_length (n : Nat) : (natBytes n).length = (Nat.digits 256 n).length := by
  have h := congrArg List.length (natBytes_val n)
  simpa using h

theorem natBytes_length_le (n k : Nat) (h : n < 256 ^ k) : (natBytes n).length ≤ k := by
  rw [natBytes_length]
  by_cases hn : n = 0
  · subst hn; simp
  · by_contra hlen
    have hle := Nat.base_pow_length_digits_le 256 n (by decide) hn
    have hpow : 256 ^ (k + 1) ≤ 256 ^ (Nat.digits 256 n).length :=
      Nat.pow_le_pow_right (by decide) (by omega)
    rw [pow_succ] at hpow
    omega

theorem natBytes_length_gt (n k : Nat) (h : 256 ^ k ≤ n) : k < (natBytes n).length := by
  rw [natBytes_length]
  have hlt := Nat.lt_base_pow_length_digits (b := 256) (m := n) (by decide)
  exact (Nat.pow_lt_pow_iff_right (by decide)).mp (lt_of_le_of_lt h hlt)

theorem natBytes_head_ne_zero (n : Nat) (a : Byte) (t : List Byte)
    (h : natBytes n = a :: t) : a ≠ 0 := by
  have h1 : natBytes (setBytes (natBytes n)) = (natBytes n).dropWhile (fun b => b = 0) :=
    natBytes_setBytes _
  rw [setBytes_natBytes] at h1
  have h2 := List.head?_dropWhile_not (fun b : Byte => decide (b = 0)) (natBytes n)
  rw [← h1, h] at h2
  simpa using h2

/-! ## Lemmas on `btcutil/base58` -/

theorem alphabet_length : alphabet.length = 58 := by decide

theorem b58_digitChar_fin : ∀ d : Fin 58, b58 (digitChar d.val) = d.val := by decide

theorem b58_digitChar (d : Nat) (h : d < 58) : b58 (digitChar d) = d :=
  b58_digitChar_fin ⟨d, h⟩

theorem digitChar_ne_idx0_fin : ∀ d : Fin 58, d.val ≠ 0 → digitChar d.val ≠ alphabetIdx0 := by
  decide

theorem digitChar_zero : digitChar 0 = alphabetIdx0 := by decide

theorem b58_eq_255_iff (c : Byte) : b58 c = 255 ↔ c ∉ alphabet := by
  unfold b58
  rw [← List.indexOf_lt_length, alphabet_length]
  split <;> omega

theorem encodeLoop_eq (fuel : Nat) : ∀ x, x ≤ fuel →
    encodeLoop fuel x = (Nat.digits 58 x).map digitChar := by
  induction fuel with
  | zero =>
    intro x h
    have h0 : x = 0 := by omega
    subst h0
    simp [encodeLoop]
  | succ f ih =>
    intro x h
    by_cases hx : x = 0
    · subst hx; simp [encodeLoop]
    · have hpos : 0 < x := Nat.pos_of_ne_zero hx
      rw [Nat.digits_def' (by decide) hpos]
      simp only [encodeLoop, hpos, if_true, List.map_cons]
      rw [ih (x / 58) (by omega)]

theorem decodeLoop_digits (ds : List Nat) : ∀ answer j, (∀ d ∈ ds, d < 58) →
    decodeLoop (ds.map digitChar) answer j = some (answer + j * Nat.ofDigits 58 ds) := by
  induction ds with
  | nil => intro answer j _; simp [decodeLoop]
  | cons d t ih =>
    intro answer j h
    have hd : d < 58 := h d (List.mem_cons_self _ _)
    have ht : ∀ e ∈ t, e < 58 := fun e he => h e (List.mem_cons_of_mem _ he)
    have hb : b58 (digitChar d) = d := b58_digitChar d hd
    have hne : b58 (digitChar d) ≠ 255 := by omega
    simp only [List.map_cons, decodeLoop, hne, if_false]
    rw [ih _ _ ht, hb, Nat.ofDigits_cons]
    congr 1
    ring

theorem decodeLoop_invalid (cs : List Byte) : ∀ answer j, (∃ c ∈ cs, c ∉ alphabet) →
    decodeLoop cs answer j = none := by
  induction cs with
  | nil => intro _ _ h; simp at h
  | cons c t ih =>
    intro answer j h
    by_cases hc : b58 c = 255
    · simp [decodeLoop, hc]
    · simp only [decodeLoop, hc, if_false]
      apply ih
      obtain ⟨c', hmem, hbad⟩ := h
      rcases List.mem_cons.mp hmem with rfl | hmem'
      · exact absurd ((b58_eq_255_iff c').mpr hbad) hc
      · exact ⟨c', hmem', hbad⟩

theorem takeWhile_replicate_append {α : Type} (p : α → Bool) (a : α) (z : Nat) (r : List α)
    (ha : p a = true) (hr : ∀ b t, r = b :: t → p b = false) :
    (List.replicate z a ++ r).takeWhile p = List.replicate z a := by
  induction z with
  | zero =>
    cases r with
    | nil => rfl
    | cons b t => simp [List.takeWhile_cons, hr b t rfl]
  | succ n ih => simp [List.replicate_succ, List.takeWhile_cons, ha, ih]

theorem replicate_takeWhile_zero (b : List Byte) :
    List.replicate (b.takeWhile (fun i => i = 0)).length (0 : Byte) =
      b.takeWhile (fun i => i = 0) := by
  symm
  rw [List.eq_replicate_iff]
  refine ⟨rfl, ?_⟩
  intro x hx
  simpa using List.mem_takeWhile_imp hx

theorem ofDigits_replicate_zero (b z : Nat) : Nat.ofDigits b (List.replicate z 0) = 0 := by
  induction z with
  | zero => rfl
  | succ n ih => simp [List.replicate_succ, Nat.ofDigits_cons, ih]

/-- Decoding inverts encoding, for byte strings of every length. -/
theorem base58Decode_base58Encode (b : List Byte) : base58Decode (base58Encode b) = b := by
  have hdig : ∀ d ∈ Nat.digits 58 (setBytes b), d < 58 := fun d hd =>
    Nat.digits_lt_base (by decide) hd
  have hloop : encodeLoop (setBytes b) (setBytes b) = (Nat.digits 58 (setBytes b)).map digitChar :=
    encodeLoop_eq _ _ (le_refl _)
  set z := (b.takeWhile (fun i => i = 0)).length with hz
  have hanswer : decodeLoop
      (encodeLoop (setBytes b) (setBytes b) ++ List.replicate z alphabetIdx0) 0 1 =
        some (setBytes b) := by
    have hrep : List.replicate z alphabetIdx0 = (List.replicate z 0).map digitChar := by
      simp [digitChar_zero]
    rw [hloop, hrep, ← List.map_append, decodeLoop_digits]
    · simp [Nat.ofDigits_append, ofDigits_replicate_zero, Nat.ofDigits_digits]
    · intro d hd
      rcases List.mem_append.mp hd with h | h
      · exact hdig d h
      · rw [List.eq_of_mem_replicate h]; decide
  have hzeros : ((List.replicate z alphabetIdx0 ++
      (encodeLoop (setBytes b) (setBytes b)).reverse).takeWhile
        (fun c => c = alphabetIdx0)).length = z := by
    rw [takeWhile_replicate_append]
    · simp
    · simp
    · intro c t hct
      rw [hloop] at hct
      have hne : Nat.digits 58 (setBytes b) ≠ [] := by
        intro h0
        rw [h0] at hct
        simp at hct
      have hlast := Nat.getLast_digit_ne_zero 58 (m := setBytes b)
        (by intro h0; exact hne (by rw [h0]; simp))
      have hc : c = digitChar ((Nat.digits 58 (setBytes b)).getLast hne) := by
        have h1 : ((Nat.digits 58 (setBytes b)).map digitChar).reverse.head? = some c := by
          rw [hct]; rfl
        rw [List.head?_reverse, List.getLast?_map, List.getLast?_eq_getLast _ hne] at h1
        simpa using h1.symm
      have hlt : (Nat.digits 58 (setBytes b)).getLast hne < 58 :=
        hdig _ (List.getLast_mem hne)
      have := digitChar_ne_idx0_fin ⟨_, hlt⟩ (by simpa using hlast)
      simp only [decide_eq_false_iff_not]
      rw [hc]
      exact this
  have henc : base58Encode b =
      List.replicate z alphabetIdx0 ++ (encodeLoop (setBytes b) (setBytes b)).reverse := by
    simp [base58Encode, hz]
  have hrev : (List.replicate z alphabetIdx0 ++
      (encodeLoop (setBytes b) (setBytes b)).reverse).reverse =
        encodeLoop (setBytes b) (setBytes b) ++ List.replicate z alphabetIdx0 := by
    simp
  unfold base58Decode
  rw [henc, hrev, hanswer]
  simp only
  rw [hzeros, natBytes_setBytes, hz, replicate_takeWhile_zero, List.takeWhile_append_dropWhile]


/-! ## Lemmas on CTR mode -/

theorem byte_xor_val (a b : Byte) : (a ^^^ b).val = a.val ^^^ b.val := by
  show (a.val ^^^ b.val) % 256 = _
  exact Nat.mod_eq_of_lt (Nat.xor_lt_two_pow (n := 8) a.isLt b.isLt)

theorem byte_xor_cancel (a b : Byte) : (a ^^^ b) ^^^ b = a := by
  apply Fin.ext
  rw [byte_xor_val, byte_xor_val, Nat.xor_assoc, Nat.xor_self, Nat.xor_zero]

theorem xorBytes_length (a k : List Byte) (h : a.length ≤ k.length) :
    (xorBytes a k).length = a.length := by
  simp [xorBytes, List.length_zipWith, h]

theorem xorBytes_cancel : ∀ (a k : List Byte), a.length ≤ k.length →
    xorBytes (xorBytes a k) k = a
  | [], _, _ => by simp [xorBytes]
  | x :: a, [], h => by simp at h
  | x :: a, y :: k, h => by
    have ih := xorBytes_cancel a k (by simpa using h)
    simp only [xorBytes, List.zipWith_cons_cons] at ih ⊢
    rw [ih, byte_xor_cancel]

theorem ctrKeystream_length (b : cipher.Block) : ∀ (n : Nat) (ctr : List Byte),
    (ctrKeystream b n ctr).length = 16 * n
  | 0, _ => by simp [ctrKeystream]
  | n + 1, ctr => by
    simp only [ctrKeystream, List.length_append, b.Encrypt_length, aesBlockSize,
      ctrKeystream_length b n]
    omega

theorem aesNewCipher_valid (key : List Byte)
    (hk : key.length = 16 ∨ key.length = 24 ∨ key.length = 32) :
    aesNewCipher key = .ok (aesCipher key) := by
  simp [aesNewCipher, hk]

/-- What `encryptWithAES` computes for an accepted key and a random source that still has a
block to give. -/
theorem encryptWithAES_eq (rand plaintext key : List Byte)
    (hk : key.length = 16 ∨ key.length = 24 ∨ key.length = 32) (hr : 16 ≤ rand.length) :
    encryptWithAES rand plaintext key =
      .ok (rand.take 16 ++ xorBytes plaintext
        (ctrKeystream (aesCipher key) ((plaintext.length + 15) / 16) (rand.take 16))) := by
  have hiv : (rand.take 16).length = 16 := by simp [hr]
  simp [encryptWithAES, aesNewCipher_valid key hk, GoResult.bind, readFull, aesBlockSize,
    hr, NewCTR, XORKeyStream, hiv]

/-- What `decryptWithAES` computes for an accepted key and an input of at least one block. -/
theorem decryptWithAES_eq (ciphertext key : List Byte)
    (hk : key.length = 16 ∨ key.length = 24 ∨ key.length = 32) (hc : 16 ≤ ciphertext.length) :
    decryptWithAES ciphertext key =
      .ok (xorBytes (ciphertext.drop 16)
        (ctrKeystream (aesCipher key) ((ciphertext.length - 16 + 15) / 16) (ciphertext.take 16))) := by
  have hiv : (ciphertext.take 16).length = 16 := by simp [hc]
  have hlt : ¬ ciphertext.length < 16 := by omega
  simp [decryptWithAES, aesNewCipher_valid key hk, GoResult.bind, aesBlockSize,
    hlt, NewCTR, XORKeyStream, hiv]


/-! ## The counter of CTR mode -/

theorem byte_add_one_val (b : Byte) : (b + 1).val = (b.val + 1) % 256 := by
  simp [Fin.val_add]

theorem incCounterLE_length : ∀ l : List Byte, (incCounterLE l).length = l.length
  | [] => rfl
  | b :: rest => by
    unfold incCounterLE
    split
    · simp [incCounterLE_length rest]
    · simp

theorem ofDigits_bytes_lt (l : List Byte) :
    Nat.ofDigits 256 (l.map Fin.val) < 256 ^ l.length := by
  have h := Nat.ofDigits_lt_base_pow_length (b := 256) (l := l.map Fin.val) (by decide)
    (by
      intro x hx
      simp only [List.mem_map] at hx
      obtain ⟨b, _, rfl⟩ := hx
      exact b.isLt)
  simpa using h

/-- On the counter read from its last byte, the increment adds one modulo `256 ^ len`. -/
theorem incCounterLE_val : ∀ l : List Byte,
    Nat.ofDigits 256 ((incCounterLE l).map Fin.val) =
      (Nat.ofDigits 256 (l.map Fin.val) + 1) % 256 ^ l.length
  | [] => by simp [incCounterLE]
  | b :: rest => by
    have ih := incCounterLE_val rest
    have hlt := ofDigits_bytes_lt rest
    have hb := b.isLt
    have hv := byte_add_one_val b
    unfold incCounterLE
    by_cases h0 : b + 1 = 0
    · have hval : (b + 1).val = 0 := by rw [h0]; rfl
      have h255 : b.val = 255 := by omega
      simp only [if_pos h0, List.map_cons, Nat.ofDigits_cons, List.length_cons, hval, ih, h255]
      rw [pow_succ, show 255 + 256 * Nat.ofDigits 256 (List.map Fin.val rest) + 1
        = 256 * (Nat.ofDigits 256 (List.map Fin.val rest) + 1) by ring,
        mul_comm (256 ^ rest.length) 256, Nat.mul_mod_mul_left]
      simp
    · have hval : (b + 1).val ≠ 0 := fun h => h0 (Fin.ext h)
      have hb1 : (b + 1).val = b.val + 1 := by omega
      simp only [if_neg h0, List.map_cons, Nat.ofDigits_cons, List.length_cons, hb1]
      rw [Nat.mod_eq_of_lt]
      · ring
      · rw [pow_succ]
        omega

/-- The counter increment keeps the length of the counter. -/
theorem incCounter_length (ctr : List Byte) : (incCounter ctr).length = ctr.length := by
  simp [incCounter, incCounterLE_length]

/-- The counter increment adds one to the big-endian value of the counter, modulo
`256 ^ len`: modulo `2 ^ 128` for a counter of one AES block. -/
theorem incCounter_val (ctr : List Byte) :
    setBytes (incCounter ctr) = (setBytes ctr + 1) % 256 ^ ctr.length := by
  rw [setBytes_eq_ofDigits, setBytes_eq_ofDigits, incCounter, List.reverse_reverse,
    incCounterLE_val, List.length_reverse]

/-- The keystream is the concatenation of the encryptions of the counter, the counter
plus one, and so on. -/
theorem ctrKeystream_eq (b : cipher.Block) : ∀ (n : Nat) (ctr : List Byte),
    ctrKeystream b n ctr = (List.range n).flatMap fun i => b.Encrypt (incCounter^[i] ctr)
  | 0, _ => rfl
  | n + 1, ctr => by
    rw [ctrKeystream, ctrKeystream_eq b n, List.range_succ_eq_map, List.flatMap_cons,
      List.flatMap_map]
    rfl

/-! ## Private key codec (`key.go`) -/

theorem BytesToPriKey_wrong_length (d : List Byte) (curve : elliptic.Curve)
    (hlen : 8 * d.length ≠ curve.Params.BitSize) :
    BytesToPriKey d curve = .error errWrongLength := by
  unfold BytesToPriKey
  exact if_pos hlen

theorem BytesToPriKey_not_smaller (d : List Byte) (curve : elliptic.Curve)
    (hlen : 8 * d.length = curve.Params.BitSize) (hN : curve.Params.N ≤ (setBytes d : Int)) :
    BytesToPriKey d curve = .error errNotSmallerThanN := by
  unfold BytesToPriKey
  rw [if_neg (not_not.mpr hlen)]
  exact if_pos hN

theorem BytesToPriKey_not_positive (d : List Byte) (curve : elliptic.Curve)
    (hlen : 8 * d.length = curve.Params.BitSize) (hN : (setBytes d : Int) < curve.Params.N)
    (h0 : (setBytes d : Int) ≤ 0) :
    BytesToPriKey d curve = .error errNotPositive := by
  unfold BytesToPriKey
  rw [if_neg (not_not.mpr hlen)]
  simp only [ge_iff_le, if_neg (not_le.mpr hN), if_pos h0]

theorem BytesToPriKey_in_range (d : List Byte) (curve : elliptic.Curve)
    (hlen : 8 * d.length = curve.Params.BitSize) (hN : (setBytes d : Int) < curve.Params.N)
    (h0 : 0 < (setBytes d : Int)) :
    BytesToPriKey d curve =
      if (curve.ScalarBaseMult d).1 = none then .error errNilX
      else .ok { PublicKey := { Curve := curve, X := (curve.ScalarBaseMult d).1,
                                Y := (curve.ScalarBaseMult d).2 },
                 D := (setBytes d : Int) } := by
  unfold BytesToPriKey
  rw [if_neg (not_not.mpr hlen)]
  simp only [ge_iff_le, if_neg (not_le.mpr hN), if_neg (not_le.mpr h0)]

set_option maxRecDepth 100000 in
theorem p256_ScalarBaseMult_one32 :
    p256.ScalarBaseMult one32 = (some p256Params.Gx, some p256Params.Gy) := by
  decide

theorem p256_ScalarBaseMult_ne_nil (k : List Byte) : (p256.ScalarBaseMult k).1 ≠ none := by
  unfold p256
  simp only
  split <;> simp

theorem BytesToPriKey_one32 : BytesToPriKey one32 p256 = .ok keyOne := by
  rw [BytesToPriKey_in_range one32 p256 (by decide) (by decide) (by decide),
    p256_ScalarBaseMult_one32]
  rfl

/-- C1, the code at the failing input: the P-256 key with scalar `D = 1` has `0 < D < N`,
`PriKeyToBytes` gives the single byte `1`, and `BytesToPriKey` answers that encoding with the
wrong-length error instead of the key. -/
theorem priKey_roundtrip_fails_at_one :
    0 < keyOne.D ∧ keyOne.D < p256.Params.N ∧ PriKeyToBytes keyOne = [1] ∧
      BytesToPriKey (PriKeyToBytes keyOne) p256 = .error errWrongLength := by
  refine ⟨by decide, by decide, by decide, ?_⟩
  exact BytesToPriKey_wrong_length _ _ (by decide)

/-- C2, the code at the failing input: for the P-256 key with scalar `D = 1` the curve's byte
size is 32, and `PriKeyToBytes` returns one byte, not the 32-byte zero-padded encoding. -/
theorem PriKeyToBytes_trims_at_one :
    p256.byteSize = 32 ∧ PriKeyToBytes keyOne = [1] ∧
      (PriKeyToBytes keyOne).length ≠ p256.byteSize ∧ PriKeyToBytes keyOne ≠ one32 := by
  decide

/-- C3: a byte string whose big-endian value is `>= N` or `<= 0` is answered with an error
and no key; and whenever `BytesToPriKey` returns a key, its `D` is the big-endian value of
the input and `0 < D < N`. -/
theorem BytesToPriKey_scalar_range (d : List Byte) (curve : elliptic.Curve) :
    ((curve.Params.N ≤ (setBytes d : Int) ∨ (setBytes d : Int) ≤ 0) →
        ∃ msg, BytesToPriKey d curve = .error msg) ∧
    (∀ pri, BytesToPriKey d curve = .ok pri →
        pri.D = (setBytes d : Int) ∧ 0 < pri.D ∧ pri.D < curve.Params.N) := by
  by_cases hlen : 8 * d.length = curve.Params.BitSize
  · by_cases hN : curve.Params.N ≤ (setBytes d : Int)
    · rw [BytesToPriKey_not_smaller d curve hlen hN]
      exact ⟨fun _ => ⟨_, rfl⟩, fun pri h => by cases h⟩
    · by_cases h0 : (setBytes d : Int) ≤ 0
      · rw [BytesToPriKey_not_positive d curve hlen (not_le.mp hN) h0]
        exact ⟨fun _ => ⟨_, rfl⟩, fun pri h => by cases h⟩
      · rw [BytesToPriKey_in_range d curve hlen (not_le.mp hN) (not_le.mp h0)]
        constructor
        · intro h
          rcases h with h | h
          · exact absurd h hN
          · exact absurd h h0
        · intro pri hpri
          by_cases hx : (curve.ScalarBaseMult d).1 = none
          · rw [if_pos hx] at hpri; cases hpri
          · rw [if_neg hx] at hpri
            cases hpri
            exact ⟨rfl, not_le.mp h0, not_le.mp hN⟩
  · rw [BytesToPriKey_wrong_length d curve hlen]
    exact ⟨fun _ => ⟨_, rfl⟩, fun pri h => by cases h⟩

/-- C3 on P-256: thirty-two zero bytes are answered with an error, and the 32-byte encoding
of 1 gives a key with `D = 1`, which lies strictly between 0 and `N`. -/
theorem BytesToPriKey_scalar_range_witness :
    (∃ msg, BytesToPriKey zeros32 p256 = .error msg) ∧
    (BytesToPriKey one32 p256 = .ok keyOne ∧
        keyOne.D = (setBytes one32 : Int) ∧ 0 < keyOne.D ∧ keyOne.D < p256.Params.N) :=
  ⟨(BytesToPriKey_scalar_range zeros32 p256).1 (Or.inr (by decide)),
   ⟨BytesToPriKey_one32, (BytesToPriKey_scalar_range one32 p256).2 _ BytesToPriKey_one32⟩⟩

set_option maxRecDepth 100000 in
/-- C4 fails on P-521: the curve's byte size is 66, and 66 bytes `0xff`, whose value is
above `N`, get the wrong-length error, not the must-be-smaller-than-`N` error; 66 zero bytes
get the wrong-length error, not the must-be-positive error. -/
theorem BytesToPriKey_check_order_fails_p521 :
    p521.byteSize = 66 ∧ (List.replicate 66 (255 : Byte)).length = p521.byteSize ∧
    p521.Params.N ≤ (setBytes (List.replicate 66 255) : Int) ∧
    BytesToPriKey (List.replicate 66 255) p521 = .error errWrongLength ∧
    BytesToPriKey (List.replicate 66 255) p521 ≠ .error errNotSmallerThanN ∧
    (List.replicate 66 (0 : Byte)).length = p521.byteSize ∧
    BytesToPriKey (List.replicate 66 0) p521 = .error errWrongLength ∧
    BytesToPriKey (List.replicate 66 0) p521 ≠ .error errNotPositive := by
  have h1 : BytesToPriKey (List.replicate 66 255) p521 = .error errWrongLength :=
    BytesToPriKey_wrong_length _ _ (by decide)
  have h2 : BytesToPriKey (List.replicate 66 0) p521 = .error errWrongLength :=
    BytesToPriKey_wrong_length _ _ (by decide)
  refine ⟨by decide, by decide, by decide, h1, ?_, by decide, h2, ?_⟩
  · rw [h1]
    intro h
    have h' : errWrongLength = errNotSmallerThanN := by injection h
    exact absurd h' (by decide)
  · rw [h2]
    intro h
    have h' : errWrongLength = errNotPositive := by injection h
    exact absurd h' (by decide)

/-- C4 as amended: `BytesToPriKey` reports the first failing check, in the order length,
scalar below `N`, scalar positive, public point. On every curve, a byte string whose length
differs from the curve's byte size gets the wrong-length error whatever its value. On a
curve whose bit size is a multiple of 8, a byte string of the curve's byte size gets the
must-be-smaller-than-`N` error when its value is `>= N`, and the must-be-positive error when
it is all zero (for a curve of positive order); when the three checks pass, the result is
decided by `ScalarBaseMult(d)`: the nil-X error when the X coordinate is `nil`, else the key
with that point and the scalar of `d`. When the length check, the check against `N` or the
sign check fails, the result is the same whatever `ScalarBaseMult` is. -/
theorem BytesToPriKey_check_order (d : List Byte) (curve : elliptic.Curve) :
    (d.length ≠ curve.byteSize → BytesToPriKey d curve = .error errWrongLength) ∧
    (curve.Params.BitSize % 8 = 0 → d.length = curve.byteSize →
      curve.Params.N ≤ (setBytes d : Int) →
        BytesToPriKey d curve = .error errNotSmallerThanN) ∧
    (curve.Params.BitSize % 8 = 0 → d.length = curve.byteSize →
      0 < curve.Params.N → (∀ b ∈ d, b = 0) →
        BytesToPriKey d curve = .error errNotPositive) ∧
    (curve.Params.BitSize % 8 = 0 → d.length = curve.byteSize →
      (setBytes d : Int) < curve.Params.N → 0 < (setBytes d : Int) →
        BytesToPriKey d curve =
          if (curve.ScalarBaseMult d).1 = none then .error errNilX
          else .ok { PublicKey := { Curve := curve, X := (curve.ScalarBaseMult d).1,
                                    Y := (curve.ScalarBaseMult d).2 },
                     D := (setBytes d : Int) }) ∧
    (8 * d.length ≠ curve.Params.BitSize ∨ curve.Params.N ≤ (setBytes d : Int) ∨
      (setBytes d : Int) ≤ 0 →
        ∀ mult : List Byte → Option Int × Option Int,
          BytesToPriKey d { Params := curve.Params, ScalarBaseMult := mult } =
            BytesToPriKey d curve) := by
  have hcheck : curve.Params.BitSize % 8 = 0 → d.length = curve.byteSize →
      8 * d.length = curve.Params.BitSize := by
    intro hbits hlen
    unfold elliptic.Curve.byteSize at hlen
    omega
  refine ⟨?_, fun hbits hlen => BytesToPriKey_not_smaller d curve (hcheck hbits hlen), ?_,
    fun hbits hlen => BytesToPriKey_in_range d curve (hcheck hbits hlen), ?_⟩
  · intro h
    apply BytesToPriKey_wrong_length
    unfold elliptic.Curve.byteSize at h
    omega
  · intro hbits hlen hN hz
    have hval : setBytes d = 0 := by
      rw [← setBytes_dropWhile_zero]
      have : d.dropWhile (fun b => decide (b = 0)) = [] := by
        rw [List.dropWhile_eq_nil_iff]
        intro b hb
        simpa using hz b hb
      rw [this]
      rfl
    apply BytesToPriKey_not_positive d curve (hcheck hbits hlen)
    · rw [hval]; simpa using hN
    · rw [hval]; simp
  · intro h mult
    by_cases hlen : 8 * d.length = curve.Params.BitSize
    · by_cases hN : curve.Params.N ≤ (setBytes d : Int)
      · rw [BytesToPriKey_not_smaller d curve hlen hN]
        exact BytesToPriKey_not_smaller d _ hlen hN
      · have h0 : (setBytes d : Int) ≤ 0 := by
          rcases h with h | h | h
          · exact absurd hlen h
          · exact absurd h hN
          · exact h
        rw [BytesToPriKey_not_positive d curve hlen (not_le.mp hN) h0]
        exact BytesToPriKey_not_positive d _ hlen (not_le.mp hN) h0
    · rw [BytesToPriKey_wrong_length d curve hlen]
      exact BytesToPriKey_wrong_length d _ hlen

set_option maxRecDepth 100000 in
/-- C4 as amended, on P-256, whose bit size 256 is a multiple of 8 and whose byte size is 32:
31 bytes get the wrong-length error although their value is 0; 32 bytes `0xff` get the
must-be-smaller-than-`N` error; 32 zero bytes get the must-be-positive error; the 32-byte
encoding of 1 passes the three checks and gives the key of the base point. -/
theorem BytesToPriKey_check_order_witness :
    BytesToPriKey (List.replicate 31 0) p256 = .error errWrongLength ∧
    BytesToPriKey ones32 p256 = .error errNotSmallerThanN ∧
    BytesToPriKey zeros32 p256 = .error errNotPositive ∧
    BytesToPriKey one32 p256 =
      .ok { PublicKey := { Curve := p256, X := some p256.Params.Gx, Y := some p256.Params.Gy },
            D := 1 } :=
  ⟨(BytesToPriKey_check_order (List.replicate 31 0) p256).1 (by decide),
   (BytesToPriKey_check_order ones32 p256).2.1 (by decide) (by decide) (by decide),
   (BytesToPriKey_check_order zeros32 p256).2.2.1 (by decide) (by decide) (by decide)
     (by decide),
   ((BytesToPriKey_check_order one32 p256).2.2.2.1 (by decide) (by decide) (by decide)
     (by decide)).trans (by rw [p256_ScalarBaseMult_one32]; rfl)⟩


/-! ## Symmetric protection of key bytes (`keyEncryption.go`) -/

/-- C5: for every plaintext, the empty one included, every key of 16, 24 or 32 bytes and
every 16-byte IV the random source gives, `encryptWithAES` succeeds and `decryptWithAES`
of its output under the same key succeeds and returns exactly the plaintext. -/
theorem decryptWithAES_encryptWithAES (rand plaintext key : List Byte)
    (hk : key.length = 16 ∨ key.length = 24 ∨ key.length = 32) (hr : 16 ≤ rand.length) :
    ∃ ciphertext, encryptWithAES rand plaintext key = .ok ciphertext ∧
      decryptWithAES ciphertext key = .ok plaintext := by
  have hiv : (rand.take 16).length = 16 := by simp [hr]
  have hks : plaintext.length ≤
      (ctrKeystream (aesCipher key) ((plaintext.length + 15) / 16) (rand.take 16)).length := by
    rw [ctrKeystream_length]
    omega
  refine ⟨_, encryptWithAES_eq rand plaintext key hk hr, ?_⟩
  rw [decryptWithAES_eq _ key hk (by simp [hr])]
  have hdrop : ∀ t : List Byte, (rand.take 16 ++ t).drop 16 = t := by
    intro t
    rw [List.drop_append_of_le_length (by omega), List.drop_of_length_le (by omega)]
    rfl
  have htake : ∀ t : List Byte, (rand.take 16 ++ t).take 16 = rand.take 16 := by
    intro t
    rw [List.take_append_of_le_length (by omega), List.take_of_length_le (by omega)]
  have hlen : (rand.take 16 ++ xorBytes plaintext
      (ctrKeystream (aesCipher key) ((plaintext.length + 15) / 16) (rand.take 16))).length - 16
        = plaintext.length := by
    rw [List.length_append, xorBytes_length _ _ hks, hiv]
    omega
  rw [hdrop, htake, hlen, xorBytes_cancel _ _ hks]

/-- C5 at a concrete input: a three-byte plaintext and the empty plaintext under a 16-byte
key, with 20 bytes left in the random source. -/
theorem decryptWithAES_encryptWithAES_witness :
    (∃ ciphertext, encryptWithAES sampleRand [1, 2, 3] sampleKey = .ok ciphertext ∧
      decryptWithAES ciphertext sampleKey = .ok [1, 2, 3]) ∧
    (∃ ciphertext, encryptWithAES sampleRand [] sampleKey = .ok ciphertext ∧
      decryptWithAES ciphertext sampleKey = .ok []) :=
  ⟨decryptWithAES_encryptWithAES sampleRand [1, 2, 3] sampleKey
      (Or.inl (by decide)) (by decide),
   decryptWithAES_encryptWithAES sampleRand [] sampleKey
      (Or.inl (by decide)) (by decide)⟩

theorem decryptWithAES_short (ciphertext key : List Byte)
    (hk : key.length = 16 ∨ key.length = 24 ∨ key.length = 32)
    (hc : ciphertext.length < 16) :
    decryptWithAES ciphertext key = .panic "runtime error: makeslice: len out of range" := by
  simp [decryptWithAES, aesNewCipher_valid key hk, GoResult.bind, aesBlockSize, hc]

/-- C6, the code at the failing input: with the 16-byte key `00 01 … 0f`, the empty input
and a 15-byte input make `decryptWithAES`, and with it `DecryptPriKey`, panic at the
allocation of `len(ciphertext) - aes.BlockSize` bytes; the outcome is a panic, not an error
value. -/
theorem decryptWithAES_panics_on_short_input (curve : elliptic.Curve) :
    decryptWithAES [] sampleKey = .panic "runtime error: makeslice: len out of range" ∧
    decryptWithAES (List.replicate 15 0) sampleKey =
      .panic "runtime error: makeslice: len out of range" ∧
    DecryptPriKey [] sampleKey curve =
      .panic "runtime error: makeslice: len out of range" ∧
    (decryptWithAES [] sampleKey).isError = false ∧
    (decryptWithAES [] sampleKey).isPanic = true := by
  have h1 := decryptWithAES_short [] sampleKey (Or.inl (by decide)) (by decide)
  have h2 := decryptWithAES_short (List.replicate 15 0) sampleKey (Or.inl (by decide))
    (by decide)
  refine ⟨h1, h2, ?_, ?_, ?_⟩
  · unfold DecryptPriKey
    rw [h1]
  · rw [h1]
    rfl
  · rw [h1]
    rfl

theorem readFull_short (src : List Byte) (n : Nat) (h : src.length < n) :
    ∃ e, readFull src n = .error e := by
  unfold readFull
  rw [if_neg (by omega)]
  split
  · exact ⟨_, rfl⟩
  · exact ⟨_, rfl⟩

/-- C7: whenever `encryptWithAES` succeeds, the random source had a block to give, the
output has length `16 + len(plaintext)`, its first 16 bytes are the IV read from the random
source, and the remaining `len(plaintext)` bytes are the plaintext XORed bytewise with the
CTR keystream of the key's block cipher started at that IV. -/
theorem encryptWithAES_layout (rand plaintext key out : List Byte)
    (h : encryptWithAES rand plaintext key = .ok out) :
    16 ≤ rand.length ∧ out.length = 16 + plaintext.length ∧ out.take 16 = rand.take 16 ∧
      (out.drop 16).length = plaintext.length ∧
      out.drop 16 = xorBytes plaintext
        (ctrKeystream (aesCipher key) ((plaintext.length + 15) / 16) (rand.take 16)) := by
  by_cases hk : key.length = 16 ∨ key.length = 24 ∨ key.length = 32
  · by_cases hr : 16 ≤ rand.length
    · have hiv : (rand.take 16).length = 16 := by simp [hr]
      have hks : plaintext.length ≤
          (ctrKeystream (aesCipher key) ((plaintext.length + 15) / 16) (rand.take 16)).length := by
        rw [ctrKeystream_length]
        omega
      rw [encryptWithAES_eq rand plaintext key hk hr] at h
      cases h
      have hdrop : ∀ t : List Byte, (rand.take 16 ++ t).drop 16 = t := by
        intro t
        rw [List.drop_append_of_le_length (by omega), List.drop_of_length_le (by omega)]
        rfl
      have htake : ∀ t : List Byte, (rand.take 16 ++ t).take 16 = rand.take 16 := by
        intro t
        rw [List.take_append_of_le_length (by omega), List.take_of_length_le (by omega)]
      refine ⟨hr, ?_, htake _, ?_, hdrop _⟩
      · rw [List.length_append, xorBytes_length _ _ hks, hiv]
      · rw [hdrop, xorBytes_length _ _ hks]
    · exfalso
      obtain ⟨e, he⟩ := readFull_short rand 16 (by omega)
      simp only [encryptWithAES, aesNewCipher_valid key hk, GoResult.bind,
        aesBlockSize, List.length_take, List.length_replicate] at h
      rw [show min 16 (16 + plaintext.length) = 16 by omega, he] at h
      cases h
  · exfalso
    simp [encryptWithAES, aesNewCipher, hk, GoResult.bind] at h

set_option maxRecDepth 100000 in
/-- C7 at a concrete input: the encryption of the bytes `01 02 03` under the key
`00 01 … 0f` with the IV `03 0a 11 …` is the IV followed by `27 87 93`. -/
theorem encryptWithAES_layout_witness :
    encryptWithAES sampleRand [1, 2, 3] sampleKey =
      .ok (sampleRand.take 16 ++ [39, 135, 147]) ∧
    (sampleRand.take 16 ++ [39, 135, 147] : List Byte).length = 16 + 3 ∧
    (sampleRand.take 16 ++ [39, 135, 147] : List Byte).drop 16 = xorBytes [1, 2, 3]
      (ctrKeystream (aesCipher sampleKey) 1 (sampleRand.take 16)) :=
  have h : encryptWithAES sampleRand [1, 2, 3] sampleKey =
      .ok (sampleRand.take 16 ++ [39, 135, 147]) := by decide
  ⟨h, (encryptWithAES_layout sampleRand [1, 2, 3] sampleKey _ h).2.1,
    (encryptWithAES_layout sampleRand [1, 2, 3] sampleKey _ h).2.2.2.2⟩


/-! ## RSA key identifiers (`rsa.go`) -/

set_option maxRecDepth 100000 in
/-- C8, the code at the failing input: for the RSA key with `N = 3233`, `E = 17` the public
key returned by `PublicKey()` has as SKI the SHA-256 digest of the encoding of `(123, 57)`;
this is not the digest of the encoding of the key's own `(3233, 17)`, which is what the
private key's `SKI()` returns. -/
theorem rsaPublicKey_SKI_at_sample :
    sampleRsaKey.PublicKey = .ok { pub := some { N := 3233, E := 17 } } ∧
    rsaPublicKey.SKI { pub := some { N := 3233, E := 17 } } =
      some (sha256Sum (asn1Marshal { N := 123, E := 57 })) ∧
    sampleRsaKey.SKI = some (sha256Sum (asn1Marshal { N := 3233, E := 17 })) ∧
    rsaPublicKey.SKI { pub := some { N := 3233, E := 17 } } ≠ sampleRsaKey.SKI :=
  ⟨rfl, rfl, rfl, by decide⟩

/-! ## Key identifiers (`key.go`) -/

/-- C9: for every byte sequence of length 32, also one that starts with zero bytes,
`SKIFromKeyID (SKIToKeyID s)` is `s`. -/
theorem SKIFromKeyID_SKIToKeyID (s : List Byte) (h : s.length = 32) :
    SKIFromKeyID (SKIToKeyID s) = s := by
  have _ := h
  exact base58Decode_base58Encode s

/-- C9 at a 32-byte sequence that starts with two zero bytes. -/
theorem SKIFromKeyID_SKIToKeyID_witness :
    sampleSKI.take 2 = [0, 0] ∧ SKIFromKeyID (SKIToKeyID sampleSKI) = sampleSKI :=
  ⟨by decide, SKIFromKeyID_SKIToKeyID sampleSKI (by decide)⟩

/-- C10 fails: the key ID `0` has a character outside the base-58 alphabet, and
`SKIFromKeyID` returns for it the empty byte sequence, which is what it returns for the
empty key ID, the encoding of the empty SKI. -/
theorem SKIFromKeyID_invalid_like_empty :
    (∃ c ∈ goString "0", c ∉ alphabet) ∧ SKIToKeyID [] = goString "" ∧
      SKIFromKeyID (goString "0") = [] ∧
      SKIFromKeyID (goString "0") = SKIFromKeyID (goString "") := by
  decide

/-- C10 as amended: for every key-ID string with at least one character outside the base-58
alphabet, `SKIFromKeyID` returns the empty byte sequence, the same result as for the empty
key ID; it has no error result. -/
theorem SKIFromKeyID_invalid (keyId : List Byte) (h : ∃ c ∈ keyId, c ∉ alphabet) :
    SKIFromKeyID keyId = [] ∧ SKIFromKeyID keyId = SKIFromKeyID [] := by
  have hloop : decodeLoop keyId.reverse 0 1 = none := by
    apply decodeLoop_invalid
    obtain ⟨c, hc, hbad⟩ := h
    exact ⟨c, List.mem_reverse.mpr hc, hbad⟩
  have hempty : SKIFromKeyID keyId = [] := by
    unfold SKIFromKeyID base58Decode
    rw [hloop]
  exact ⟨hempty, by rw [hempty]; rfl⟩

/-- C10 as amended, at the key ID `3mJr0`, whose last character is outside the alphabet. -/
theorem SKIFromKeyID_invalid_witness :
    SKIFromKeyID (goString "3mJr0") = [] ∧
      SKIFromKeyID (goString "3mJr0") = SKIFromKeyID [] :=
  SKIFromKeyID_invalid (goString "3mJr0") (by decide)


/-! ## Further properties -/

/-- The encoding `PriKeyToBytes` produces is the minimal big-endian encoding of `|D|`: it
decodes to `|D|`, it has no leading zero byte, and it fits in `k` bytes exactly when
`|D| < 256 ^ k`. -/
theorem PriKeyToBytes_minimal (pri : ecdsa.PrivateKey) :
    setBytes (PriKeyToBytes pri) = pri.D.natAbs ∧
    (∀ a t, PriKeyToBytes pri = a :: t → a ≠ 0) ∧
    (∀ k, (PriKeyToBytes pri).length ≤ k ↔ pri.D.natAbs < 256 ^ k) := by
  refine ⟨setBytes_natBytes _, fun a t h => natBytes_head_ne_zero _ a t h, fun k => ?_⟩
  constructor
  · intro hlen
    by_contra hge
    have := natBytes_length_gt pri.D.natAbs k (not_lt.mp hge)
    unfold PriKeyToBytes bigBytes at hlen
    omega
  · exact natBytes_length_le _ k

/-- A key whose scalar is shorter than the curve's byte size does not survive the round
trip: for a curve of positive bit size and `|D| < 256 ^ (byteSize - 1)`, `BytesToPriKey`
answers `PriKeyToBytes pri` with the wrong-length error. -/
theorem priKey_roundtrip_short_scalar (pri : ecdsa.PrivateKey) (curve : elliptic.Curve)
    (hbits : 0 < curve.Params.BitSize)
    (hD : pri.D.natAbs < 256 ^ (curve.byteSize - 1)) :
    BytesToPriKey (PriKeyToBytes pri) curve = .error errWrongLength := by
  apply BytesToPriKey_wrong_length
  have hlen : (PriKeyToBytes pri).length ≤ curve.byteSize - 1 := natBytes_length_le _ _ hD
  unfold elliptic.Curve.byteSize at hlen
  omega

set_option maxRecDepth 100000 in
/-- The round trip at the P-256 key with scalar `2 ^ 247`, whose encoding has 31 bytes. -/
theorem priKey_roundtrip_short_scalar_witness :
    BytesToPriKey
      (PriKeyToBytes { PublicKey := { Curve := p256, X := none, Y := none }, D := 2 ^ 247 })
      p256 = .error errWrongLength :=
  priKey_roundtrip_short_scalar _ p256 (by decide) (by decide)

/-- A key whose scalar fills the curve's byte size survives the round trip: on a curve of
bit size `8 * L` with `L > 0`, for `256 ^ (L - 1) ≤ D < 256 ^ L` and `D < N`, `BytesToPriKey`
answers `PriKeyToBytes pri` as it answers any scalar in range, with a key of scalar `D`
unless `ScalarBaseMult` gives a `nil` X coordinate. -/
theorem priKey_roundtrip_full_scalar (pri : ecdsa.PrivateKey) (curve : elliptic.Curve)
    (L : Nat) (hL : 0 < L) (hbits : curve.Params.BitSize = 8 * L)
    (hlo : (256 : Int) ^ (L - 1) ≤ pri.D) (hhi : pri.D < 256 ^ L)
    (hN : pri.D < curve.Params.N) :
    BytesToPriKey (PriKeyToBytes pri) curve =
      if (curve.ScalarBaseMult (PriKeyToBytes pri)).1 = none then .error errNilX
      else .ok { PublicKey := { Curve := curve,
                                X := (curve.ScalarBaseMult (PriKeyToBytes pri)).1,
                                Y := (curve.ScalarBaseMult (PriKeyToBytes pri)).2 },
                 D := pri.D } := by
  have hpos : 0 < pri.D := lt_of_lt_of_le (by positivity) hlo
  have habs : (pri.D.natAbs : Int) = pri.D := Int.natAbs_of_nonneg (le_of_lt hpos)
  have hval : (setBytes (PriKeyToBytes pri) : Int) = pri.D := by
    rw [show setBytes (PriKeyToBytes pri) = pri.D.natAbs from setBytes_natBytes _, habs]
  have hlo' : 256 ^ (L - 1) ≤ pri.D.natAbs := by
    have : ((256 ^ (L - 1) : Nat) : Int) ≤ (pri.D.natAbs : Int) := by
      rw [habs]; exact_mod_cast hlo
    exact_mod_cast this
  have hhi' : pri.D.natAbs < 256 ^ L := by
    have : (pri.D.natAbs : Int) < ((256 ^ L : Nat) : Int) := by
      rw [habs]; exact_mod_cast hhi
    exact_mod_cast this
  have hlen : (PriKeyToBytes pri).length = L := by
    have h1 : (PriKeyToBytes pri).length ≤ L := natBytes_length_le _ _ hhi'
    have h2 : L - 1 < (PriKeyToBytes pri).length := natBytes_length_gt _ _ hlo'
    omega
  rw [BytesToPriKey_in_range _ curve (by rw [hlen, hbits]) (by rw [hval]; exact hN)
    (by rw [hval]; exact hpos), hval]

set_option maxRecDepth 100000 in
/-- The round trip at the P-256 key with scalar `2 ^ 248`, whose encoding has 32 bytes. -/
theorem priKey_roundtrip_full_scalar_witness :
    ∃ pri, BytesToPriKey
      (PriKeyToBytes { PublicKey := { Curve := p256, X := none, Y := none }, D := 2 ^ 248 })
      p256 = .ok pri ∧ pri.D = 2 ^ 248 := by
  exact ⟨_, (priKey_roundtrip_full_scalar _ p256 32 (by decide) rfl (by decide) (by decide)
    (by decide)).trans (if_neg (p256_ScalarBaseMult_ne_nil _)), rfl⟩

/-- For every key of 16, 24 or 32 bytes and every input of fewer than 16 bytes,
`decryptWithAES` and `DecryptPriKey` panic at the allocation of the plaintext buffer. -/
theorem decryptWithAES_short_panics (ciphertext key : List Byte) (curve : elliptic.Curve)
    (hk : key.length = 16 ∨ key.length = 24 ∨ key.length = 32)
    (hc : ciphertext.length < 16) :
    decryptWithAES ciphertext key = .panic "runtime error: makeslice: len out of range" ∧
    DecryptPriKey ciphertext key curve =
      .panic "runtime error: makeslice: len out of range" := by
  have h := decryptWithAES_short ciphertext key hk hc
  refine ⟨h, ?_⟩
  unfold DecryptPriKey
  rw [h]

/-- The panic at a 15-byte input under a 32-byte key. -/
theorem decryptWithAES_short_panics_witness :
    decryptWithAES (List.replicate 15 1) (List.replicate 32 7) =
      .panic "runtime error: makeslice: len out of range" ∧
    DecryptPriKey (List.replicate 15 1) (List.replicate 32 7) p256 =
      .panic "runtime error: makeslice: len out of range" :=
  decryptWithAES_short_panics _ _ p256 (Or.inr (Or.inr (by decide))) (by decide)


/-! ## Lemmas on the point encoding of `crypto/elliptic` -/

theorem setBytes_replicate_zero_append (k : Nat) (l : List Byte) :
    setBytes (List.replicate k 0 ++ l) = setBytes l := by
  induction k with
  | zero => simp
  | succ n ih => rw [List.replicate_succ, List.cons_append, setBytes_cons_zero, ih]

theorem bigBytes_of_nonneg (x : Int) (h : 0 ≤ x) : (setBytes (bigBytes x) : Int) = x := by
  rw [show setBytes (bigBytes x) = x.natAbs from setBytes_natBytes _]
  exact Int.natAbs_of_nonneg h

theorem bigBytes_length_le (curve : elliptic.Curve) (x : Int) (h0 : 0 ≤ x)
    (hx : x < curve.Params.P) (hP : curve.Params.P ≤ 2 ^ curve.Params.BitSize) :
    (bigBytes x).length ≤ curve.byteSize := by
  apply natBytes_length_le
  have h256 : 2 ^ curve.Params.BitSize ≤ 256 ^ curve.byteSize := by
    rw [show (256 : Nat) = 2 ^ 8 by norm_num, ← pow_mul]
    apply Nat.pow_le_pow_right (by decide)
    unfold elliptic.Curve.byteSize
    omega
  have hlt : (x.natAbs : Int) < ((2 ^ curve.Params.BitSize : Nat) : Int) := by
    rw [Int.natAbs_of_nonneg h0]
    push_cast
    exact lt_of_lt_of_le hx hP
  have hlt' : x.natAbs < 2 ^ curve.Params.BitSize := by exact_mod_cast hlt
  exact lt_of_lt_of_le hlt' h256

theorem IsOnCurve_iff (curve : elliptic.Curve) (x y : Int) :
    curve.IsOnCurve x y = true ↔
      0 ≤ x ∧ x < curve.Params.P ∧ 0 ≤ y ∧ y < curve.Params.P ∧
        (y * y) % curve.Params.P =
          (x * x * x - 3 * x + curve.Params.B) % curve.Params.P := by
  simp [elliptic.Curve.IsOnCurve]

theorem fillBytes_eq (n : Nat) (x : Int) (h : (bigBytes x).length ≤ n) :
    fillBytes n x = .ok (List.replicate (n - (bigBytes x).length) 0 ++ bigBytes x) := by
  unfold fillBytes
  rw [if_neg (by omega)]

/-- The uncompressed form of a point on the curve: the tag byte 4, then `X` and `Y`, each
padded on the left with zero bytes to the byte size. -/
theorem ellipticMarshal_eq (curve : elliptic.Curve) (x y : Int)
    (hP : curve.Params.P ≤ 2 ^ curve.Params.BitSize) (hon : curve.IsOnCurve x y = true) :
    ellipticMarshal curve (some x) (some y) =
      .ok (4 :: ((List.replicate (curve.byteSize - (bigBytes x).length) 0 ++ bigBytes x) ++
        (List.replicate (curve.byteSize - (bigBytes y).length) 0 ++ bigBytes y))) := by
  obtain ⟨hx0, hxP, hy0, hyP, _⟩ := (IsOnCurve_iff curve x y).mp hon
  have hlx := bigBytes_length_le curve x hx0 hxP hP
  have hly := bigBytes_length_le curve y hy0 hyP hP
  unfold elliptic.Curve.byteSize at hlx hly ⊢
  simp only [ellipticMarshal, hon, not_true_eq_false, and_false, if_false,
    fillBytes_eq _ x hlx, fillBytes_eq _ y hly, GoResult.bind]

/-- A point that is neither on the curve nor the pair `(0, 0)` makes `elliptic.Marshal`
panic. -/
theorem ellipticMarshal_off_curve (curve : elliptic.Curve) (x y : Int)
    (h0 : ¬ (x = 0 ∧ y = 0)) (hoff : curve.IsOnCurve x y = false) :
    ellipticMarshal curve (some x) (some y) = .panic panicInvalidPoint := by
  simp only [ellipticMarshal, hoff, h0, not_false_eq_true, and_self, if_true,
    Bool.false_eq_true]

theorem ellipticUnmarshal_padded (curve : elliptic.Curve) (px py : List Byte)
    (hpx : px.length = curve.byteSize) (hpy : py.length = curve.byteSize)
    (hon : curve.IsOnCurve (setBytes px) (setBytes py) = true) :
    ellipticUnmarshal curve (4 :: (px ++ py)) =
      (some (setBytes px : Int), some (setBytes py : Int)) := by
  obtain ⟨_, hx, _, hy, _⟩ := (IsOnCurve_iff curve _ _).mp hon
  unfold elliptic.Curve.byteSize at hpx hpy
  have hlen : ¬ (4 :: (px ++ py)).length ≠ 1 + 2 * ((curve.Params.BitSize + 7) / 8) := by
    simp only [List.length_cons, List.length_append, hpx, hpy]
    omega
  have htake : ((4 :: (px ++ py)).drop 1).take ((curve.Params.BitSize + 7) / 8) = px := by
    rw [List.drop_one, List.tail_cons, ← hpx, List.take_left' rfl]
  have hdrop : (4 :: (px ++ py)).drop (1 + (curve.Params.BitSize + 7) / 8) = py := by
    rw [Nat.add_comm, List.drop_succ_cons, ← hpx, List.drop_left' rfl]
  have hrange : ¬ ((setBytes px : Int) ≥ curve.Params.P ∨
      (setBytes py : Int) ≥ curve.Params.P) := by
    intro h
    rcases h with h | h <;> omega
  simp only [ellipticUnmarshal, if_neg hlen, htake, hdrop, if_neg hrange, hon,
    List.headD_cons, ne_eq, not_true_eq_false, if_false]

/-! ## Fingerprints of EC public keys (`key.go`) -/

set_option maxRecDepth 100000 in
theorem sha256Sum_basePub :
    sha256Sum (4 :: (natBytes p256Params.Gx.toNat ++ natBytes p256Params.Gy.toNat)) =
      [105, 139, 234, 99, 220, 68, 163, 68, 102, 63, 241, 66, 154, 234, 16, 132, 45, 242, 123,
       107, 153, 30, 242, 88, 102, 178, 198, 192, 44, 220, 197, 190] := by
  decide

set_option maxRecDepth 100000 in
theorem PubKeyToBytes_basePub :
    PubKeyToBytes basePub =
      .ok (4 :: (natBytes p256Params.Gx.toNat ++ natBytes p256Params.Gy.toNat)) := by
  decide

set_option maxRecDepth 100000 in
/-- C11 fails: the non-nil P-256 key with the coordinates `(1, 1)`, a point off the curve,
and the non-nil key with `nil` coordinates have no SKI: `PubKeyToBytes` panics on them, and
with it `SKIFromPubKey` and `PubKeyToKeyID`. -/
theorem SKIFromPubKey_panics_off_curve :
    p256.IsOnCurve 1 1 = false ∧
    PubKeyToBytes { Curve := p256, X := some 1, Y := some 1 } = .panic panicInvalidPoint ∧
    SKIFromPubKey (some { Curve := p256, X := some 1, Y := some 1 }) =
      .panic panicInvalidPoint ∧
    PubKeyToKeyID (some { Curve := p256, X := some 1, Y := some 1 }) =
      .panic panicInvalidPoint ∧
    SKIFromPubKey (some { Curve := p256, X := none, Y := none }) = .panic panicNilPointer := by
  decide

/-- C11 as amended: for every non-nil EC public key whose coordinates are not `nil` and form
a point on the key's curve (a curve whose `P` has at most `BitSize` bits), `PubKeyToBytes`
returns the uncompressed form of the point and `SKIFromPubKey` is the SHA-256 digest of
these bytes, 32 bytes long; every public key with the same canonical bytes has the same SKI;
and `PubKeyToKeyID(key)` is `SKIToKeyID(SKIFromPubKey(key))`. -/
theorem SKIFromPubKey_digest (key other : ecdsa.PublicKey) (x y : Int)
    (hX : key.X = some x) (hY : key.Y = some y)
    (hP : key.Curve.Params.P ≤ 2 ^ key.Curve.Params.BitSize)
    (hon : key.Curve.IsOnCurve x y = true) :
    ∃ data, PubKeyToBytes key = .ok data ∧
      data = 4 :: ((List.replicate (key.Curve.byteSize - (bigBytes x).length) 0 ++ bigBytes x)
        ++ (List.replicate (key.Curve.byteSize - (bigBytes y).length) 0 ++ bigBytes y)) ∧
      SKIFromPubKey (some key) = .ok (some (sha256Sum data)) ∧
      (sha256Sum data).length = 32 ∧
      PubKeyToKeyID (some key) = .ok (SKIToKeyID (sha256Sum data)) ∧
      (PubKeyToBytes other = PubKeyToBytes key →
        SKIFromPubKey (some other) = SKIFromPubKey (some key)) := by
  have h : PubKeyToBytes key = .ok (4 ::
      ((List.replicate (key.Curve.byteSize - (bigBytes x).length) 0 ++ bigBytes x)
        ++ (List.replicate (key.Curve.byteSize - (bigBytes y).length) 0 ++ bigBytes y))) := by
    unfold PubKeyToBytes
    rw [hX, hY]
    exact ellipticMarshal_eq key.Curve x y hP hon
  refine ⟨_, h, rfl, ?_, sha256Sum_length _, ?_, ?_⟩
  · simp only [SKIFromPubKey, h, GoResult.bind]
  · simp only [PubKeyToKeyID, SKIFromPubKey, h, GoResult.bind, SKIToKeyID, Option.getD_some]
  · intro hsame
    simp only [SKIFromPubKey, hsame]

set_option maxRecDepth 100000 in
/-- C11 as amended, at the public key of the base point of P-256: its SKI is the SHA-256
digest of the 65-byte uncompressed form of the point. -/
theorem SKIFromPubKey_digest_witness :
    p256.IsOnCurve p256Params.Gx p256Params.Gy = true ∧
    SKIFromPubKey (some basePub) =
      .ok (some [105, 139, 234, 99, 220, 68, 163, 68, 102, 63, 241, 66, 154, 234, 16, 132, 45,
        242, 123, 107, 153, 30, 242, 88, 102, 178, 198, 192, 44, 220, 197, 190]) := by
  obtain ⟨data, h1, _, h3, _⟩ := SKIFromPubKey_digest basePub basePub p256Params.Gx
    p256Params.Gy rfl rfl (by decide) (by decide)
  rw [PubKeyToBytes_basePub] at h1
  injection h1 with h1
  rw [← h1, sha256Sum_basePub] at h3
  exact ⟨by decide, h3⟩

/-- C12: after `RemoveKeyMem` the scalar `D` is zero, the curve and the public coordinates
are unchanged, and the SKI of the public key is the same as before. -/
theorem RemoveKeyMem_frame (pri : ecdsa.PrivateKey) :
    (RemoveKeyMem pri).D = 0 ∧
    (RemoveKeyMem pri).PublicKey.Curve = pri.PublicKey.Curve ∧
    (RemoveKeyMem pri).PublicKey.X = pri.PublicKey.X ∧
    (RemoveKeyMem pri).PublicKey.Y = pri.PublicKey.Y ∧
    SKIFromPubKey (some (RemoveKeyMem pri).PublicKey) = SKIFromPubKey (some pri.PublicKey) :=
  ⟨rfl, rfl, rfl, rfl, rfl⟩

/-- C12 at the P-256 key with scalar 1: the wiped key has scalar 0 and still the base
point. -/
theorem RemoveKeyMem_frame_witness :
    keyOne.D = 1 ∧ (RemoveKeyMem keyOne).D = 0 ∧
      (RemoveKeyMem keyOne).PublicKey.X = some p256Params.Gx ∧
      SKIFromPubKey (some (RemoveKeyMem keyOne).PublicKey) =
        SKIFromPubKey (some keyOne.PublicKey) :=
  ⟨rfl, (RemoveKeyMem_frame keyOne).1, (RemoveKeyMem_frame keyOne).2.2.1,
    (RemoveKeyMem_frame keyOne).2.2.2.2⟩

/-! ## Key sizes of the cipher (`keyEncryption.go`) -/

/-- C15: for a key whose length is not 16, 24 or 32, `encryptWithAES` and `decryptWithAES`
return the key-size error of `aes.NewCipher` and no output, for every plaintext, every
state of the random source and every encrypted input, also one shorter than a block. -/
theorem aes_invalid_key_size (rand plaintext ciphertext key : List Byte)
    (hk : ¬ (key.length = 16 ∨ key.length = 24 ∨ key.length = 32)) :
    encryptWithAES rand plaintext key =
      .error ("crypto/aes: invalid key size " ++ toString key.length) ∧
    decryptWithAES ciphertext key =
      .error ("crypto/aes: invalid key size " ++ toString key.length) := by
  constructor
  · simp only [encryptWithAES, aesNewCipher, if_neg hk, GoResult.bind]
  · simp only [decryptWithAES, aesNewCipher, if_neg hk, GoResult.bind]

/-- C15 at a 15-byte key: the error comes for a three-byte plaintext and for the empty
encrypted input alike. -/
theorem aes_invalid_key_size_witness :
    encryptWithAES sampleRand [1, 2, 3] (List.replicate 15 0) =
      .error "crypto/aes: invalid key size 15" ∧
    decryptWithAES [] (List.replicate 15 0) = .error "crypto/aes: invalid key size 15" :=
  aes_invalid_key_size sampleRand [1, 2, 3] [] (List.replicate 15 0) (by decide)

/-! ## The fingerprint of RSA public keys (`rsa.go`) -/

set_option maxRecDepth 100000 in
theorem sha256Sum_123_57 :
    sha256Sum (asn1Marshal { N := 123, E := 57 }) =
      [146, 154, 244, 25, 196, 29, 89, 189, 92, 160, 97, 100, 181, 84, 158, 107, 195, 173, 254,
       97, 99, 35, 159, 25, 170, 76, 210, 231, 118, 52, 184, 149] := by
  decide

/-- C18: `rsaPublicKey.SKI` returns one and the same 32-byte value for every RSA public key
with a non-nil inner key: the SHA-256 digest of the encoding of `(123, 57)`, whatever the
modulus and the exponent; two such keys have equal SKIs. -/
theorem rsaPublicKey_SKI_constant (pub other : rsa.PublicKey) :
    rsaPublicKey.SKI { pub := some pub } =
      some [146, 154, 244, 25, 196, 29, 89, 189, 92, 160, 97, 100, 181, 84, 158, 107, 195, 173,
        254, 97, 99, 35, 159, 25, 170, 76, 210, 231, 118, 52, 184, 149] ∧
    (∃ ski, rsaPublicKey.SKI { pub := some pub } = some ski ∧ ski.length = 32) ∧
    rsaPublicKey.SKI { pub := some pub } = rsaPublicKey.SKI { pub := some other } := by
  have h : rsaPublicKey.SKI { pub := some pub } =
      some (sha256Sum (asn1Marshal { N := 123, E := 57 })) := rfl
  refine ⟨by rw [h, sha256Sum_123_57], ⟨_, h, sha256Sum_length _⟩, rfl⟩

/-! ## The length check of `BytesToPriKey` -/

/-- C19: `BytesToPriKey` returns a key only for a byte string with `8 * len(d) = BitSize`;
hence on a curve whose bit size is not a multiple of 8 it returns the wrong-length error for
every byte string. -/
theorem BytesToPriKey_length_gate (d : List Byte) (curve : elliptic.Curve) :
    (∀ pri, BytesToPriKey d curve = .ok pri → 8 * d.length = curve.Params.BitSize) ∧
    (curve.Params.BitSize % 8 ≠ 0 → BytesToPriKey d curve = .error errWrongLength) := by
  constructor
  · intro pri h
    by_contra hlen
    rw [BytesToPriKey_wrong_length d curve hlen] at h
    cases h
  · intro h
    apply BytesToPriKey_wrong_length
    omega

set_option maxRecDepth 100000 in
/-- C19 on P-521: the 66-byte encoding of the scalar 1 has the curve's byte size and a
value strictly between 0 and `N`, and gets the wrong-length error. -/
theorem BytesToPriKey_length_gate_witness :
    p521.Params.BitSize = 521 ∧ one66.length = p521.byteSize ∧
      0 < (setBytes one66 : Int) ∧ (setBytes one66 : Int) < p521.Params.N ∧
      BytesToPriKey one66 p521 = .error errWrongLength :=
  ⟨rfl, by decide, by decide, by decide,
    (BytesToPriKey_length_gate one66 p521).2 (by decide)⟩

/-! ## RSA signing and verification (`rsa.go`) -/

/-- C13: `RsaVerifier.Verify` returns `true` only together with a `nil` error and only for
an RSA public key with PSS options that `rsa.VerifyPSS` accepts. For an RSA public key and
PSS options it returns `(true, nil)` when `rsa.VerifyPSS` accepts, and `false` with the
verifying error when it rejects; that error differs from the error it returns for absent
options and for options of another type. -/
theorem RsaVerifier_Verify_outcomes (lib : CryptoRSA) (pub : rsa.PublicKey)
    (signature digest : List Byte) (pssOpts : rsa.PSSOptions) :
    (∀ (key : Key) (opts : Option SignerOpts) (err : Option String),
      RsaVerifier.Verify lib key signature digest opts = .ok (true, err) →
        err = none ∧ ∃ pub' pssOpts', key = .rsaPublic (some { pub := some pub' }) ∧
          opts = some (.pss (some pssOpts')) ∧
          lib.VerifyPSS pub' pssOpts'.Hash digest signature pssOpts' = .ok ()) ∧
    (lib.VerifyPSS pub pssOpts.Hash digest signature pssOpts = .ok () →
      RsaVerifier.Verify lib (.rsaPublic (some { pub := some pub })) signature digest
        (some (.pss (some pssOpts))) = .ok (true, none)) ∧
    (∀ e, lib.VerifyPSS pub pssOpts.Hash digest signature pssOpts = .error e →
      RsaVerifier.Verify lib (.rsaPublic (some { pub := some pub })) signature digest
        (some (.pss (some pssOpts))) = .ok (false, some errVerifying)) ∧
    RsaVerifier.Verify lib (.rsaPublic (some { pub := some pub })) signature digest none =
      .ok (false, some errInvalidOptions) ∧
    (∀ hashFunc, RsaVerifier.Verify lib (.rsaPublic (some { pub := some pub })) signature
      digest (some (.other hashFunc)) = .ok (false, some errInvalidOptions)) ∧
    errVerifying ≠ errInvalidOptions := by
  refine ⟨?_, ?_, ?_, rfl, fun _ => rfl, by decide⟩
  · intro key opts err h
    rcases opts with _ | ⟨po | hf⟩
    · simp [RsaVerifier.Verify] at h
    · rcases key with k | k | _
      · simp [RsaVerifier.Verify] at h
      · rcases k with _ | ⟨⟨p⟩⟩
        · simp [RsaVerifier.Verify] at h
        · rcases po with _ | po
          · simp [RsaVerifier.Verify] at h
          · rcases p with _ | p
            · simp [RsaVerifier.Verify] at h
            · simp only [RsaVerifier.Verify] at h
              cases hv : lib.VerifyPSS p po.Hash digest signature po with
              | ok u =>
                rw [hv] at h
                simp only [GoResult.ok.injEq, Prod.mk.injEq, true_and] at h
                exact ⟨h.symm, p, po, rfl, rfl, hv⟩
              | error e =>
                rw [hv] at h
                simp at h
              | panic e =>
                rw [hv] at h
                simp at h
      · simp [RsaVerifier.Verify] at h
    · simp [RsaVerifier.Verify] at h
  · intro h
    simp only [RsaVerifier.Verify, h]
  · intro e h
    simp only [RsaVerifier.Verify, h]

/-- C13 at the small RSA key with the stand-in library: the signature `[5]` of the digest
`[5]` is not accepted (`5 ^ 17 mod 3233` is not 5), and the outcome is `false` with the
verifying error; the signature `[1]` of the digest `[1]` is accepted. -/
theorem RsaVerifier_Verify_outcomes_witness :
    RsaVerifier.Verify sampleRsaLib (.rsaPublic (some { pub := some { N := 3233, E := 17 } }))
      [5] [5] (some (.pss (some samplePSS))) = .ok (false, some errVerifying) ∧
    RsaVerifier.Verify sampleRsaLib (.rsaPublic (some { pub := some { N := 3233, E := 17 } }))
      [1] [1] (some (.pss (some samplePSS))) = .ok (true, none) :=
  ⟨(RsaVerifier_Verify_outcomes sampleRsaLib { N := 3233, E := 17 } [5] [5] samplePSS).2.2.1
      "crypto/rsa: verification error" (by decide),
   (RsaVerifier_Verify_outcomes sampleRsaLib { N := 3233, E := 17 } [1] [1] samplePSS).2.1
      (by decide)⟩

/-- C14 fails: for options of another type than `*rsa.PSSOptions` (here `crypto.SHA256`,
hash number 5) `RsaVerifier.Verify` returns the very error it returns for absent options. -/
theorem RsaVerifier_Verify_same_error :
    RsaVerifier.Verify sampleRsaLib (.rsaPublic (some { pub := some { N := 3233, E := 17 } }))
      [1] [1] (some (.other 5)) = .ok (false, some "invalid options") ∧
    RsaVerifier.Verify sampleRsaLib (.rsaPublic (some { pub := some { N := 3233, E := 17 } }))
      [1] [1] none = .ok (false, some "invalid options") ∧
    RsaVerifier.Verify sampleRsaLib (.rsaPublic (some { pub := some { N := 3233, E := 17 } }))
      [1] [1] (some (.other 5)) =
    RsaVerifier.Verify sampleRsaLib (.rsaPublic (some { pub := some { N := 3233, E := 17 } }))
      [1] [1] none :=
  ⟨rfl, rfl, rfl⟩

/-- C14 as amended: for every key, digest and signature, `RsaSigner.Sign` and
`RsaVerifier.Verify` fail with the invalid-options error when the options are absent, and
`RsaVerifier.Verify` fails with the same invalid-options error, and the result `false`, when
the options are of another type than `*rsa.PSSOptions`. -/
theorem Rsa_invalid_options (lib : CryptoRSA) (rand : List Byte) (key : Key)
    (signature digest : List Byte) :
    RsaSigner.Sign lib rand key digest none = .error errInvalidOptions ∧
    RsaVerifier.Verify lib key signature digest none = .ok (false, some errInvalidOptions) ∧
    (∀ hashFunc, RsaVerifier.Verify lib key signature digest (some (.other hashFunc)) =
      .ok (false, some errInvalidOptions)) :=
  ⟨rfl, rfl, fun _ => rfl⟩

/-- C14 as amended, at the small RSA key. -/
theorem Rsa_invalid_options_witness :
    RsaSigner.Sign sampleRsaLib sampleRand (.rsaPrivate (some sampleRsaKey)) [1] none =
      .error "invalid options" ∧
    RsaVerifier.Verify sampleRsaLib (.rsaPrivate (some sampleRsaKey)) [1] [1] none =
      .ok (false, some "invalid options") :=
  ⟨(Rsa_invalid_options sampleRsaLib sampleRand (.rsaPrivate (some sampleRsaKey)) [1] [1]).1,
   (Rsa_invalid_options sampleRsaLib sampleRand (.rsaPrivate (some sampleRsaKey)) [1] [1]).2.1⟩

/-! ## Encrypted private keys (`keyEncryption.go`) -/

theorem DecryptPriKey_of_decrypt (encryptedKey key decKey : List Byte) (curve : elliptic.Curve)
    (h : decryptWithAES encryptedKey key = .ok decKey) :
    DecryptPriKey encryptedKey key curve = BytesToPriKey decKey curve := by
  unfold DecryptPriKey
  rw [h]
  simp only
  cases BytesToPriKey decKey curve <;> rfl

/-- Decrypting an encrypted private key hands the bytes of `PriKeyToBytes` to
`BytesToPriKey`. -/
theorem DecryptPriKey_EncryptPriKey (rand key ciphertext : List Byte)
    (pri : ecdsa.PrivateKey) (curve : elliptic.Curve)
    (hk : key.length = 16 ∨ key.length = 24 ∨ key.length = 32) (hr : 16 ≤ rand.length)
    (h : EncryptPriKey rand pri key = .ok ciphertext) :
    DecryptPriKey ciphertext key curve = BytesToPriKey (PriKeyToBytes pri) curve := by
  have hiv : (rand.take 16).length = 16 := by simp [hr]
  have hks : (PriKeyToBytes pri).length ≤ (ctrKeystream (aesCipher key)
      (((PriKeyToBytes pri).length + 15) / 16) (rand.take 16)).length := by
    rw [ctrKeystream_length]
    omega
  simp only [EncryptPriKey, encryptWithAES_eq rand _ key hk hr, GoResult.ok.injEq] at h
  apply DecryptPriKey_of_decrypt
  rw [← h, decryptWithAES_eq _ key hk (by simp [hr])]
  have hdrop : ∀ t : List Byte, (rand.take 16 ++ t).drop 16 = t := by
    intro t
    rw [List.drop_append_of_le_length (by omega), List.drop_of_length_le (by omega)]
    rfl
  have htake : ∀ t : List Byte, (rand.take 16 ++ t).take 16 = rand.take 16 := by
    intro t
    rw [List.take_append_of_le_length (by omega), List.take_of_length_le (by omega)]
  have hlen : (rand.take 16 ++ xorBytes (PriKeyToBytes pri) (ctrKeystream (aesCipher key)
      (((PriKeyToBytes pri).length + 15) / 16) (rand.take 16))).length - 16
        = (PriKeyToBytes pri).length := by
    rw [List.length_append, xorBytes_length _ _ hks, hiv]
    omega
  rw [hdrop, htake, hlen, xorBytes_cancel _ _ hks]

set_option maxRecDepth 100000 in
theorem EncryptPriKey_keyOne :
    EncryptPriKey sampleRand keyOne sampleKey = .ok (sampleRand.take 16 ++ [39]) := by
  decide

/-- C17, the code at the failing input: the P-256 key with scalar `D = 1` has `0 < D < N`;
under the key `00 01 … 0f` and the IV `03 0a 11 …`, `EncryptPriKey` returns the IV followed
by one byte, and `DecryptPriKey` answers that with the wrong-length error instead of the
key. -/
theorem DecryptPriKey_EncryptPriKey_fails_at_one :
    0 < keyOne.D ∧ keyOne.D < p256.Params.N ∧
    EncryptPriKey sampleRand keyOne sampleKey = .ok (sampleRand.take 16 ++ [39]) ∧
    DecryptPriKey (sampleRand.take 16 ++ [39]) sampleKey p256 = .error errWrongLength := by
  refine ⟨by decide, by decide, EncryptPriKey_keyOne, ?_⟩
  rw [DecryptPriKey_EncryptPriKey sampleRand sampleKey _ keyOne p256 (Or.inl (by decide))
    (by decide) EncryptPriKey_keyOne]
  exact BytesToPriKey_wrong_length _ _ (by decide)

/-- For every state of the random source and every key of the cipher, a private key whose
scalar is shorter than the curve's byte size does not come back from `DecryptPriKey`. -/
theorem DecryptPriKey_EncryptPriKey_short_scalar (rand key ciphertext : List Byte)
    (pri : ecdsa.PrivateKey) (curve : elliptic.Curve)
    (hk : key.length = 16 ∨ key.length = 24 ∨ key.length = 32) (hr : 16 ≤ rand.length)
    (hbits : 0 < curve.Params.BitSize)
    (hD : pri.D.natAbs < 256 ^ (curve.byteSize - 1))
    (h : EncryptPriKey rand pri key = .ok ciphertext) :
    DecryptPriKey ciphertext key curve = .error errWrongLength := by
  rw [DecryptPriKey_EncryptPriKey rand key ciphertext pri curve hk hr h]
  apply BytesToPriKey_wrong_length
  have hlen : (PriKeyToBytes pri).length ≤ curve.byteSize - 1 := natBytes_length_le _ _ hD
  unfold elliptic.Curve.byteSize at hlen
  omega

/-! ## Public key codec (`key.go`) -/

/-- C16: for a public key whose point lies on the curve (coordinates in `[0, P)` that
satisfy the curve equation, on a curve whose `P` has at most `BitSize` bits),
`PubKeyToBytes` is the tag byte 4 followed by `X` and `Y`, each padded with zero bytes on the
left to the curve's byte size, and `BytesToPubKey` of these bytes returns the key with the
same `X`, `Y` and curve. A byte string encodes a point on the curve when it has
`1 + 2 * byteSize` bytes, the tag 4, both coordinates below `P` and the coordinates satisfy
the curve equation; for every other byte string (wrong length, wrong tag, a coordinate not
below `P`, or an equation that fails) `BytesToPubKey` returns an error, and for a byte string
that does encode a point it returns the key of that point. -/
theorem pubKey_roundtrip (curve : elliptic.Curve) (x y : Int) (data : List Byte) :
    (0 ≤ x → x < curve.Params.P → 0 ≤ y → y < curve.Params.P →
      curve.Params.P ≤ 2 ^ curve.Params.BitSize → curve.IsOnCurve x y = true →
        PubKeyToBytes { Curve := curve, X := some x, Y := some y } =
          .ok (4 :: ((List.replicate (curve.byteSize - (bigBytes x).length) 0 ++ bigBytes x) ++
            (List.replicate (curve.byteSize - (bigBytes y).length) 0 ++ bigBytes y))) ∧
        (List.replicate (curve.byteSize - (bigBytes x).length) (0 : Byte)
          ++ bigBytes x).length = curve.byteSize ∧
        (List.replicate (curve.byteSize - (bigBytes y).length) (0 : Byte)
          ++ bigBytes y).length = curve.byteSize ∧
        BytesToPubKey
          (4 :: ((List.replicate (curve.byteSize - (bigBytes x).length) 0 ++ bigBytes x) ++
            (List.replicate (curve.byteSize - (bigBytes y).length) 0 ++ bigBytes y))) curve =
          .ok { Curve := curve, X := some x, Y := some y }) ∧
    (data.length ≠ 1 + 2 * curve.byteSize ∨ data.headD 0 ≠ 4 ∨
      curve.Params.P ≤ (setBytes ((data.drop 1).take curve.byteSize) : Int) ∨
      curve.Params.P ≤ (setBytes (data.drop (1 + curve.byteSize)) : Int) ∨
      ((setBytes (data.drop (1 + curve.byteSize)) : Int) *
          (setBytes (data.drop (1 + curve.byteSize)) : Int)) % curve.Params.P ≠
        ((setBytes ((data.drop 1).take curve.byteSize) : Int) *
          (setBytes ((data.drop 1).take curve.byteSize) : Int) *
          (setBytes ((data.drop 1).take curve.byteSize) : Int) -
          3 * (setBytes ((data.drop 1).take curve.byteSize) : Int) + curve.Params.B) %
            curve.Params.P →
        BytesToPubKey data curve = .error "") ∧
    (data.length = 1 + 2 * curve.byteSize → data.headD 0 = 4 →
      (setBytes ((data.drop 1).take curve.byteSize) : Int) < curve.Params.P →
      (setBytes (data.drop (1 + curve.byteSize)) : Int) < curve.Params.P →
      ((setBytes (data.drop (1 + curve.byteSize)) : Int) *
          (setBytes (data.drop (1 + curve.byteSize)) : Int)) % curve.Params.P =
        ((setBytes ((data.drop 1).take curve.byteSize) : Int) *
          (setBytes ((data.drop 1).take curve.byteSize) : Int) *
          (setBytes ((data.drop 1).take curve.byteSize) : Int) -
          3 * (setBytes ((data.drop 1).take curve.byteSize) : Int) + curve.Params.B) %
            curve.Params.P →
        BytesToPubKey data curve =
          .ok { Curve := curve,
                X := some (setBytes ((data.drop 1).take curve.byteSize) : Int),
                Y := some (setBytes (data.drop (1 + curve.byteSize)) : Int) }) := by
  refine ⟨?_, ?_, ?_⟩
  · intro hx0 hxP hy0 hyP hP hon
    have hlx := bigBytes_length_le curve x hx0 hxP hP
    have hly := bigBytes_length_le curve y hy0 hyP hP
    have hpx : (List.replicate (curve.byteSize - (bigBytes x).length) (0 : Byte)
        ++ bigBytes x).length = curve.byteSize := by
      simp only [List.length_append, List.length_replicate]
      omega
    have hpy : (List.replicate (curve.byteSize - (bigBytes y).length) (0 : Byte)
        ++ bigBytes y).length = curve.byteSize := by
      simp only [List.length_append, List.length_replicate]
      omega
    have hvx : (setBytes (List.replicate (curve.byteSize - (bigBytes x).length) (0 : Byte)
        ++ bigBytes x) : Int) = x := by
      rw [setBytes_replicate_zero_append, bigBytes_of_nonneg x hx0]
    have hvy : (setBytes (List.replicate (curve.byteSize - (bigBytes y).length) (0 : Byte)
        ++ bigBytes y) : Int) = y := by
      rw [setBytes_replicate_zero_append, bigBytes_of_nonneg y hy0]
    refine ⟨ellipticMarshal_eq curve x y hP hon, hpx, hpy, ?_⟩
    have hun := ellipticUnmarshal_padded curve _ _ hpx hpy (by rw [hvx, hvy]; exact hon)
    rw [hvx, hvy] at hun
    simp only [BytesToPubKey, hun]
    rfl
  · intro h
    have hnil : (ellipticUnmarshal curve data).1 = none := by
      unfold elliptic.Curve.byteSize at h
      unfold ellipticUnmarshal
      simp only
      split
      · rfl
      · split
        · rfl
        · split
          · rfl
          · split
            · rfl
            · rename_i hlen htag hrange hon
              exfalso
              have hon' := (IsOnCurve_iff curve _ _).mp (not_not.mp hon)
              rcases h with h | h | h | h | h
              · exact hlen h
              · exact htag h
              · exact hrange (Or.inl h)
              · exact hrange (Or.inr h)
              · exact h hon'.2.2.2.2
    simp only [BytesToPubKey, hnil, if_true]
  · intro hlen htag hx hy heq
    have hon : curve.IsOnCurve (setBytes ((data.drop 1).take curve.byteSize))
        (setBytes (data.drop (1 + curve.byteSize))) = true :=
      (IsOnCurve_iff curve _ _).mpr ⟨by positivity, hx, by positivity, hy, heq⟩
    unfold elliptic.Curve.byteSize at hlen hx hy hon ⊢
    have hrange : ¬ ((setBytes ((data.drop 1).take ((curve.Params.BitSize + 7) / 8)) : Int) ≥
        curve.Params.P ∨ (setBytes (data.drop (1 + (curve.Params.BitSize + 7) / 8)) : Int) ≥
        curve.Params.P) := by
      intro h
      rcases h with h | h <;> omega
    simp only [BytesToPubKey, ellipticUnmarshal, hlen, htag, ne_eq, not_true_eq_false,
      if_false, if_neg hrange, hon]
    rfl

set_option maxRecDepth 100000 in
/-- C16 on P-256: the base point comes back from its 65-byte form. The empty byte string,
the 65-byte form with tag 3, the form of the pair `(0, 0)` and the 65-byte form with tag 4
whose first coordinate is `P` itself and whose second is a square root of `B` (the point
`(0, √B)` with `P` added to its first coordinate) are answered with an error. -/
theorem pubKey_roundtrip_witness :
    (∃ bytes, PubKeyToBytes basePub = .ok bytes ∧ bytes.length = 65 ∧
      bytes.take 3 = [4, 0x6b, 0x17] ∧ BytesToPubKey bytes p256 = .ok basePub) ∧
    BytesToPubKey [] p256 = .error "" ∧
    BytesToPubKey (3 :: List.replicate 64 0) p256 = .error "" ∧
    BytesToPubKey (4 :: List.replicate 64 0) p256 = .error "" ∧
    BytesToPubKey (4 :: (natBytes p256Params.P.toNat ++
      natBytes 0x66485c780e2f83d72433bd5d84a06bb6541c2af31dae871728bf856a174f93f4)) p256 =
        .error "" :=
  ⟨⟨_, ((pubKey_roundtrip p256 p256Params.Gx p256Params.Gy []).1 (by decide) (by decide)
      (by decide) (by decide) (by decide) (by decide)).1, by decide, by decide,
      ((pubKey_roundtrip p256 p256Params.Gx p256Params.Gy []).1 (by decide) (by decide)
      (by decide) (by decide) (by decide) (by decide)).2.2.2⟩,
   (pubKey_roundtrip p256 0 0 []).2.1 (Or.inl (by decide)),
   (pubKey_roundtrip p256 0 0 (3 :: List.replicate 64 0)).2.1 (Or.inr (Or.inl (by decide))),
   (pubKey_roundtrip p256 0 0 (4 :: List.replicate 64 0)).2.1
     (Or.inr (Or.inr (Or.inr (Or.inr (by decide))))),
   (pubKey_roundtrip p256 0 0 (4 :: (natBytes p256Params.P.toNat ++
      natBytes 0x66485c780e2f83d72433bd5d84a06bb6541c2af31dae871728bf856a174f93f4))).2.1
     (Or.inr (Or.inr (Or.inl (by decide))))⟩

end Heimdall
